import Mathlib

/-!
Verification of the `python-install` wheel-installer engine
(`install/__init__.py`) against its natural-language specification.

The development shallowly embeds the source:

* the wheel-filename regular expression `_WHEEL_NAME_REGEX` together with
  CPython `re.match` backtracking semantics (greedy `.+`, ordered
  alternation for the optional group, `.` matching any character except
  a newline, anchored at the start only);
* `_read_wheel_metadata` (line splitting on `':'`, `str.strip`);
* the `Wheel-Version` tuple check from `build` (Python tuple comparison);
* the `Root-Is-Purelib` role selection from `install`;
* `_copy_dir` (the `shutil.copytree(…, dirs_exist_ok=True)` branch) as a
  recursive merge of directory trees;
* `_destdir_path` at the level of path strings;
* `build`/`install` as state transformers over a flat path-indexed
  file-system model, preserving the source's control flow, including its
  quirks (the location `install` uses for the `.data` directory, the
  dangling `else` in the data-directory loop, exceptions aborting with
  the state reached so far).
-/

set_option autoImplicit false

namespace PyInstall

/-! ## Option alternation (ordered choice, as in regex backtracking) -/

def oalt {α : Type} : Option α → Option α → Option α
  | some x, _ => some x
  | none, b => b

@[simp] theorem oalt_none_left {α : Type} (b : Option α) : oalt none b = b := rfl

@[simp] theorem oalt_some_left {α : Type} (x : α) (b : Option α) :
    oalt (some x) b = some x := rfl

@[simp] theorem oalt_none_right {α : Type} (a : Option α) : oalt a none = a := by
  cases a <;> rfl

/-! ## The wheel-name regular expression

`_WHEEL_NAME_REGEX = re.compile(r'(?P<distribution>.+)-(?P<version>.+)'
                               r'(-(?P<build_tag>.+))?-(?P<python_tag>.+)'
                               r'-(?P<abi_tag>.+)-(?P<platform_tag>.+).whl')`

used through `parse_name` via `re.match` (anchored at the start, trailing
input permitted).  We model the exact pattern with CPython backtracking
semantics: `.` matches any character except `'\n'`; `X+` is greedy (longer
consumption tried first); the optional group `(…)?` tries the present
branch first.  The continuation-passing matcher below mirrors this:
`plusG k acc l` consumes one or more characters from `l` (longest first)
and hands the captured characters and the remaining input to `k`.
-/

def dotOk (c : Char) : Bool := c ≠ '\n'

structure WheelInfo where
  distribution : List Char
  version : List Char
  build_tag : Option (List Char)
  python_tag : List Char
  abi_tag : List Char
  platform_tag : List Char
deriving DecidableEq, Repr

def plusG {α : Type} (k : List Char → List Char → Option α) :
    List Char → List Char → Option α
  | _, [] => none
  | acc, c :: rest =>
    if dotOk c then oalt (plusG k (acc ++ [c]) rest) (k (acc ++ [c]) rest)
    else none

/-- Tail of the pattern after the `platform_tag` capture: `.whl` — one
non-newline character, then the literal characters `w`, `h`, `l`; any
further input is permitted (`re.match` is not `re.fullmatch`). -/
def groupsTail (d v : List Char) (b : Option (List Char)) (p a t rest : List Char) :
    Option WheelInfo :=
  match rest with
  | c :: 'w' :: 'h' :: 'l' :: _ => if dotOk c then some ⟨d, v, b, p, a, t⟩ else none
  | _ => none

/-- After the `abi_tag` capture: literal `-`, then the greedy
`platform_tag` capture, then the tail. -/
def afterAbi (d v : List Char) (b : Option (List Char)) (p a : List Char)
    (r : List Char) : Option WheelInfo :=
  match r with
  | c :: r2 => if c = '-' then plusG (groupsTail d v b p a) [] r2 else none
  | [] => none

/-- After the `python_tag` capture: literal `-`, then the greedy
`abi_tag` capture. -/
def afterPy (d v : List Char) (b : Option (List Char)) (p : List Char)
    (r : List Char) : Option WheelInfo :=
  match r with
  | c :: r2 => if c = '-' then plusG (afterAbi d v b p) [] r2 else none
  | [] => none

/-- After the optional build-tag group: literal `-`, then the greedy
`python_tag` capture. -/
def afterBuild (d v : List Char) (b : Option (List Char)) (r : List Char) :
    Option WheelInfo :=
  match r with
  | c :: r2 => if c = '-' then plusG (afterPy d v b) [] r2 else none
  | [] => none

/-- After the `version` capture: the optional group `(-(?P<build_tag>.+))?`,
present branch first (greedy `?`), then the rest of the pattern. -/
def afterVersion (d v : List Char) (r : List Char) : Option WheelInfo :=
  oalt
    (match r with
     | c :: r2 => if c = '-' then plusG (fun bcap r3 => afterBuild d v (some bcap) r3) [] r2 else none
     | [] => none)
    (afterBuild d v none r)

/-- After the `distribution` capture: literal `-`, then the greedy
`version` capture. -/
def afterDist (d : List Char) (r : List Char) : Option WheelInfo :=
  match r with
  | c :: r2 => if c = '-' then plusG (afterVersion d) [] r2 else none
  | [] => none

/-- The full match of `_WHEEL_NAME_REGEX` at the start of `s`
(`re.match` semantics); `none` models "no match". -/
def matchWheelName (s : List Char) : Option WheelInfo :=
  plusG afterDist [] s

/-- Model of `parse_name`: raises `InstallException` on a non-match,
returns `match.groupdict()` otherwise. -/
def parse_name (s : String) : Except String WheelInfo :=
  match matchWheelName s.toList with
  | some g => .ok g
  | none => .error ("Invalid wheel name: " ++ s)

/-- Sanity check: a five-segment name parses exactly as the wheel
naming convention intends. -/
theorem matchWheelName_five_segments_check :
    matchWheelName ("pkg-1.2.3-py3-none-any.whl".toList) =
      some ⟨"pkg".toList, "1.2.3".toList, none, "py3".toList,
            "none".toList, "any".toList⟩ := by decide

/-! ### Backtracking lemmas for the wheel-name matcher

A hyphen-free, newline-free, nonempty block of a filename is a
"segment".  All continuations of the matcher after a greedy capture
first demand a literal `-` (we call such continuations *gated*), which
lets the greedy search be peeled off one segment at a time.
-/

def segOk (l : List Char) : Prop := l ≠ [] ∧ '-' ∉ l ∧ '\n' ∉ l

instance (l : List Char) : Decidable (segOk l) := by
  unfold segOk; infer_instance

/-- A continuation is gated when it fails on any input that does not
start with a literal hyphen. -/
def gated {α : Type} (k : List Char → List Char → Option α) : Prop :=
  ∀ cap rest, (∀ r', rest ≠ '-' :: r') → k cap rest = none

theorem segOk_append_ne_hyphen {t : List Char} (ht : segOk t) (rest : List Char) :
    ∀ r', t ++ rest ≠ '-' :: r' := by
  obtain ⟨hne, hh, -⟩ := ht
  cases t with
  | nil => exact absurd rfl hne
  | cons c t2 =>
    intro r' h
    have hc : c = '-' := by
      have := congrArg (fun l => l.head?) h
      simpa using this
    exact hh (hc ▸ List.mem_cons_self c t2)

/-- Greedy search over a hyphen-free remainder fails for a gated
continuation. -/
theorem plusG_noHyphen {α : Type} {k : List Char → List Char → Option α}
    (hk : gated k) :
    ∀ (zs : List Char), '-' ∉ zs → ∀ (acc : List Char), plusG k acc zs = none := by
  intro zs
  induction zs with
  | nil => intro _ acc; rfl
  | cons c rest ih =>
    intro hz acc
    have hcr : '-' ∉ rest := fun h => hz (List.mem_cons_of_mem _ h)
    have hkr : k (acc ++ [c]) rest = none := by
      refine hk _ _ fun r' h => ?_
      exact hcr (h ▸ List.mem_cons_self '-' r')
    show (if dotOk c then oalt (plusG k (acc ++ [c]) rest) (k (acc ++ [c]) rest)
          else none) = none
    by_cases hd : dotOk c
    · rw [if_pos hd, ih hcr (acc ++ [c]), hkr]; rfl
    · rw [if_neg hd]

/-- Peeling one segment: for a gated continuation, greedy search over
`xs ++ '-' :: ys` (with `xs` a segment and `ys` not starting with a
hyphen) either continues past the hyphen (preferred, greedy) or stops
exactly at the end of `xs`. -/
theorem plusG_block {α : Type} {k : List Char → List Char → Option α}
    (hk : gated k) :
    ∀ (xs : List Char), segOk xs →
    ∀ (ys : List Char), (∀ r', ys ≠ '-' :: r') → ∀ (acc : List Char),
    plusG k acc (xs ++ '-' :: ys) =
      oalt (plusG k (acc ++ xs ++ ['-']) ys) (k (acc ++ xs) ('-' :: ys)) := by
  intro xs
  induction xs with
  | nil => intro hs; exact absurd rfl hs.1
  | cons x xs ih =>
    intro hs ys hys acc
    obtain ⟨-, hh, hn⟩ := hs
    have hx : dotOk x = true := by
      simp only [dotOk, ne_eq, decide_eq_true_eq]
      intro h; exact hn (h ▸ List.mem_cons_self x xs)
    cases xs with
    | nil =>
      show (if dotOk x then
              oalt (plusG k (acc ++ [x]) ('-' :: ys)) (k (acc ++ [x]) ('-' :: ys))
            else none) = _
      rw [if_pos hx]
      have h2 : plusG k (acc ++ [x]) ('-' :: ys) =
          oalt (plusG k (acc ++ [x] ++ ['-']) ys) (k (acc ++ [x] ++ ['-']) ys) := by
        show (if dotOk '-' then _ else none) = _
        rw [if_pos (by decide)]
      rw [h2, hk _ _ hys, oalt_none_right]
    | cons y xs2 =>
      have hh2 : '-' ∉ y :: xs2 := fun h => hh (List.mem_cons_of_mem _ h)
      have hn2 : '\n' ∉ y :: xs2 := fun h => hn (List.mem_cons_of_mem _ h)
      have hy : y ≠ '-' := fun h => hh2 (h ▸ List.mem_cons_self y xs2)
      show (if dotOk x then
              oalt (plusG k (acc ++ [x]) ((y :: xs2) ++ '-' :: ys))
                   (k (acc ++ [x]) ((y :: xs2) ++ '-' :: ys))
            else none) = _
      rw [if_pos hx]
      have hk2 : k (acc ++ [x]) ((y :: xs2) ++ '-' :: ys) = none := by
        refine hk _ _ fun r' h => ?_
        exact hy (by simpa using congrArg (fun l => l.head?) h)
      rw [hk2, oalt_none_right, ih ⟨by simp, hh2, hn2⟩ ys hys (acc ++ [x])]
      simp [List.append_assoc]

theorem not_hyphen_head {r : List Char} (hr : '-' ∉ r) : ∀ r', r ≠ '-' :: r' :=
  fun r' h => hr (h ▸ List.mem_cons_self '-' r')

/-! Gatedness of each continuation of the matcher. -/

theorem gated_afterDist : gated afterDist := by
  intro cap rest h
  cases rest with
  | nil => rfl
  | cons c r2 =>
    have hc : c ≠ '-' := fun hc => h r2 (by rw [hc])
    show (if c = '-' then plusG (afterVersion cap) [] r2 else none) = none
    rw [if_neg hc]

theorem gated_afterVersion (d : List Char) : gated (afterVersion d) := by
  intro cap rest h
  cases rest with
  | nil => rfl
  | cons c r2 =>
    have hc : c ≠ '-' := fun hc => h r2 (by rw [hc])
    show oalt
        (if c = '-' then
          plusG (fun bcap r3 => afterBuild d cap (some bcap) r3) [] r2 else none)
        (if c = '-' then plusG (afterPy d cap none) [] r2 else none) = none
    rw [if_neg hc, if_neg hc]; rfl

theorem gated_bstage (d v : List Char) :
    gated (fun bcap r3 => afterBuild d v (some bcap) r3) := by
  intro cap rest h
  cases rest with
  | nil => rfl
  | cons c r2 =>
    have hc : c ≠ '-' := fun hc => h r2 (by rw [hc])
    show (if c = '-' then plusG (afterPy d v (some cap)) [] r2 else none) = none
    rw [if_neg hc]

theorem gated_afterPy (d v : List Char) (b : Option (List Char)) :
    gated (afterPy d v b) := by
  intro cap rest h
  cases rest with
  | nil => rfl
  | cons c r2 =>
    have hc : c ≠ '-' := fun hc => h r2 (by rw [hc])
    show (if c = '-' then plusG (afterAbi d v b cap) [] r2 else none) = none
    rw [if_neg hc]

theorem gated_afterAbi (d v : List Char) (b : Option (List Char)) (p : List Char) :
    gated (afterAbi d v b p) := by
  intro cap rest h
  cases rest with
  | nil => rfl
  | cons c r2 =>
    have hc : c ≠ '-' := fun hc => h r2 (by rw [hc])
    show (if c = '-' then plusG (groupsTail d v b p cap) [] r2 else none) = none
    rw [if_neg hc]

/-! The four trailing characters of a well-formed wheel filename. -/

def tailWhl : List Char := ['.', 'w', 'h', 'l']

theorem noHyphen_tailWhl {s6 : List Char} (h6 : segOk s6) : '-' ∉ s6 ++ tailWhl := by
  intro h
  rcases List.mem_append.1 h with h | h
  · exact h6.2.1 h
  · simp [tailWhl] at h

/-- The platform-tag capture cannot start inside the `.whl` suffix. -/
theorem plusG_groupsTail_tail (d v : List Char) (b : Option (List Char))
    (p a : List Char) (acc : List Char) :
    plusG (groupsTail d v b p a) acc tailWhl = none := rfl

/-- The greedy platform-tag capture takes exactly the segment before
`.whl` (longer candidates leave too little input for the suffix). -/
theorem plusG_groupsTail_seg (d v : List Char) (b : Option (List Char))
    (p a : List Char) :
    ∀ (xs : List Char), xs ≠ [] → '\n' ∉ xs → ∀ (acc : List Char),
    plusG (groupsTail d v b p a) acc (xs ++ tailWhl) =
      some ⟨d, v, b, p, a, acc ++ xs⟩ := by
  intro xs
  induction xs with
  | nil => intro h; exact absurd rfl h
  | cons x xs ih =>
    intro _ hn acc
    have hx : dotOk x = true := by
      simp only [dotOk, ne_eq, decide_eq_true_eq]
      intro h; exact hn (h ▸ List.mem_cons_self x xs)
    cases xs with
    | nil =>
      show (if dotOk x then
              oalt (plusG (groupsTail d v b p a) (acc ++ [x]) tailWhl)
                   (groupsTail d v b p a (acc ++ [x]) tailWhl)
            else none) = _
      rw [if_pos hx, plusG_groupsTail_tail]
      rfl
    | cons y xs2 =>
      have hn2 : '\n' ∉ y :: xs2 := fun h => hn (List.mem_cons_of_mem _ h)
      show (if dotOk x then
              oalt (plusG (groupsTail d v b p a) (acc ++ [x]) ((y :: xs2) ++ tailWhl))
                   (groupsTail d v b p a (acc ++ [x]) ((y :: xs2) ++ tailWhl))
            else none) = _
      rw [if_pos hx, ih (by simp) hn2 (acc ++ [x])]
      simp [oalt, List.append_assoc]

variable {s1 s2 s3 s4 s5 s6 r6 : List Char}

/-! Failure lemmas: each remaining piece of the pattern needs at least
as many hyphens as it has mandatory `-` literals; `r6` abstracts the
final hyphen-free remainder (`s6 ++ tailWhl` in the end theorem). -/

theorem afterPy_none_oneHyphen (d v : List Char) (b : Option (List Char))
    (p : List Char) (hr : '-' ∉ r6) : afterPy d v b p ('-' :: r6) = none := by
  show (if ('-' : Char) = '-' then plusG (afterAbi d v b p) [] r6 else none) = none
  rw [if_pos rfl, plusG_noHyphen (gated_afterAbi d v b p) r6 hr]

theorem afterBuild_none_oneHyphen (d v : List Char) (b : Option (List Char))
    (hr : '-' ∉ r6) : afterBuild d v b ('-' :: r6) = none := by
  show (if ('-' : Char) = '-' then plusG (afterPy d v b) [] r6 else none) = none
  rw [if_pos rfl, plusG_noHyphen (gated_afterPy d v b) r6 hr]

theorem afterVersion_none_oneHyphen (d v : List Char) (hr : '-' ∉ r6) :
    afterVersion d v ('-' :: r6) = none := by
  show oalt
      (if ('-' : Char) = '-' then
        plusG (fun bcap r3 => afterBuild d v (some bcap) r3) [] r6 else none)
      (afterBuild d v none ('-' :: r6)) = none
  rw [if_pos rfl, plusG_noHyphen (gated_bstage d v) r6 hr,
      afterBuild_none_oneHyphen d v none hr]
  rfl

theorem plusG_afterPy_none_R5 (d v : List Char) (b : Option (List Char))
    (h5 : segOk s5) (hr : '-' ∉ r6) (acc : List Char) :
    plusG (afterPy d v b) acc (s5 ++ '-' :: r6) = none := by
  rw [plusG_block (gated_afterPy d v b) s5 h5 r6 (not_hyphen_head hr) acc,
      plusG_noHyphen (gated_afterPy d v b) r6 hr]
  simp only [oalt_none_left]
  exact afterPy_none_oneHyphen d v b _ hr

theorem afterBuild_none_twoHyphen (d v : List Char) (b : Option (List Char))
    (h5 : segOk s5) (hr : '-' ∉ r6) :
    afterBuild d v b ('-' :: (s5 ++ '-' :: r6)) = none := by
  show (if ('-' : Char) = '-' then
          plusG (afterPy d v b) [] (s5 ++ '-' :: r6) else none) = none
  rw [if_pos rfl, plusG_afterPy_none_R5 d v b h5 hr []]

theorem plusG_bstage_none_R5 (d v : List Char) (h5 : segOk s5) (hr : '-' ∉ r6)
    (acc : List Char) :
    plusG (fun bcap r3 => afterBuild d v (some bcap) r3) acc (s5 ++ '-' :: r6) = none := by
  rw [plusG_block (gated_bstage d v) s5 h5 r6 (not_hyphen_head hr) acc,
      plusG_noHyphen (gated_bstage d v) r6 hr]
  simp only [oalt_none_left]
  exact afterBuild_none_oneHyphen d v (some (acc ++ s5)) hr

theorem afterVersion_none_twoHyphen (d v : List Char) (h5 : segOk s5)
    (hr : '-' ∉ r6) : afterVersion d v ('-' :: (s5 ++ '-' :: r6)) = none := by
  show oalt
      (if ('-' : Char) = '-' then
        plusG (fun bcap r3 => afterBuild d v (some bcap) r3) [] (s5 ++ '-' :: r6)
       else none)
      (afterBuild d v none ('-' :: (s5 ++ '-' :: r6))) = none
  rw [if_pos rfl, plusG_bstage_none_R5 d v h5 hr [],
      afterBuild_none_twoHyphen d v none h5 hr]
  rfl

theorem plusG_afterVersion_none_R5 (d : List Char) (h5 : segOk s5)
    (hr : '-' ∉ r6) (acc : List Char) :
    plusG (afterVersion d) acc (s5 ++ '-' :: r6) = none := by
  rw [plusG_block (gated_afterVersion d) s5 h5 r6 (not_hyphen_head hr) acc,
      plusG_noHyphen (gated_afterVersion d) r6 hr]
  simp only [oalt_none_left]
  exact afterVersion_none_oneHyphen d _ hr

theorem plusG_afterVersion_none_R4 (d : List Char) (h4 : segOk s4)
    (h5 : segOk s5) (hr : '-' ∉ r6) (acc : List Char) :
    plusG (afterVersion d) acc (s4 ++ '-' :: (s5 ++ '-' :: r6)) = none := by
  rw [plusG_block (gated_afterVersion d) s4 h4 _ (segOk_append_ne_hyphen h5 _) acc,
      plusG_afterVersion_none_R5 d h5 hr _]
  simp only [oalt_none_left]
  exact afterVersion_none_twoHyphen d _ h5 hr

theorem plusG_bstage_none_R4 (d v : List Char) (h4 : segOk s4) (h5 : segOk s5)
    (hr : '-' ∉ r6) (acc : List Char) :
    plusG (fun bcap r3 => afterBuild d v (some bcap) r3) acc
      (s4 ++ '-' :: (s5 ++ '-' :: r6)) = none := by
  rw [plusG_block (gated_bstage d v) s4 h4 _ (segOk_append_ne_hyphen h5 _) acc,
      plusG_bstage_none_R5 d v h5 hr _]
  simp only [oalt_none_left]
  exact afterBuild_none_twoHyphen d v (some (acc ++ s4)) h5 hr

/-! Success lemmas: the unique surviving backtracking branch. -/

theorem afterAbi_some (d v : List Char) (b : Option (List Char)) (p a : List Char)
    (h6 : segOk s6) :
    afterAbi d v b p a ('-' :: (s6 ++ tailWhl)) = some ⟨d, v, b, p, a, s6⟩ := by
  show (if ('-' : Char) = '-' then
          plusG (groupsTail d v b p a) [] (s6 ++ tailWhl) else none) = _
  rw [if_pos rfl, plusG_groupsTail_seg d v b p a s6 h6.1 h6.2.2 []]
  simp

theorem plusG_afterAbi_some (d v : List Char) (b : Option (List Char)) (p : List Char)
    (h5 : segOk s5) (h6 : segOk s6) :
    plusG (afterAbi d v b p) [] (s5 ++ '-' :: (s6 ++ tailWhl)) =
      some ⟨d, v, b, p, s5, s6⟩ := by
  rw [plusG_block (gated_afterAbi d v b p) s5 h5 _ (segOk_append_ne_hyphen h6 _) [],
      plusG_noHyphen (gated_afterAbi d v b p) _ (noHyphen_tailWhl h6)]
  simp only [oalt_none_left, List.nil_append]
  exact afterAbi_some d v b p s5 h6

theorem afterPy_some (d v : List Char) (b : Option (List Char)) (p : List Char)
    (h5 : segOk s5) (h6 : segOk s6) :
    afterPy d v b p ('-' :: (s5 ++ '-' :: (s6 ++ tailWhl))) =
      some ⟨d, v, b, p, s5, s6⟩ := by
  show (if ('-' : Char) = '-' then
          plusG (afterAbi d v b p) [] (s5 ++ '-' :: (s6 ++ tailWhl)) else none) = _
  rw [if_pos rfl, plusG_afterAbi_some d v b p h5 h6]

theorem plusG_afterPy_some (d v : List Char) (b : Option (List Char))
    (h4 : segOk s4) (h5 : segOk s5) (h6 : segOk s6) :
    plusG (afterPy d v b) [] (s4 ++ '-' :: (s5 ++ '-' :: (s6 ++ tailWhl))) =
      some ⟨d, v, b, s4, s5, s6⟩ := by
  rw [plusG_block (gated_afterPy d v b) s4 h4 _ (segOk_append_ne_hyphen h5 _) [],
      plusG_afterPy_none_R5 d v b h5 (noHyphen_tailWhl h6) _]
  simp only [oalt_none_left, List.nil_append]
  exact afterPy_some d v b s4 h5 h6

theorem afterBuild_some (d v : List Char) (b : Option (List Char))
    (h4 : segOk s4) (h5 : segOk s5) (h6 : segOk s6) :
    afterBuild d v b ('-' :: (s4 ++ '-' :: (s5 ++ '-' :: (s6 ++ tailWhl)))) =
      some ⟨d, v, b, s4, s5, s6⟩ := by
  show (if ('-' : Char) = '-' then
          plusG (afterPy d v b) [] (s4 ++ '-' :: (s5 ++ '-' :: (s6 ++ tailWhl)))
        else none) = _
  rw [if_pos rfl, plusG_afterPy_some d v b h4 h5 h6]

theorem afterVersion_some (d v : List Char) (h4 : segOk s4) (h5 : segOk s5)
    (h6 : segOk s6) :
    afterVersion d v ('-' :: (s4 ++ '-' :: (s5 ++ '-' :: (s6 ++ tailWhl)))) =
      some ⟨d, v, none, s4, s5, s6⟩ := by
  show oalt
      (if ('-' : Char) = '-' then
        plusG (fun bcap r3 => afterBuild d v (some bcap) r3) []
          (s4 ++ '-' :: (s5 ++ '-' :: (s6 ++ tailWhl)))
       else none)
      (afterBuild d v none
        ('-' :: (s4 ++ '-' :: (s5 ++ '-' :: (s6 ++ tailWhl))))) = _
  rw [if_pos rfl, plusG_bstage_none_R4 d v h4 h5 (noHyphen_tailWhl h6) [],
      afterBuild_some d v none h4 h5 h6]
  rfl

theorem plusG_afterVersion_some (d : List Char) (h3 : segOk s3) (h4 : segOk s4)
    (h5 : segOk s5) (h6 : segOk s6) :
    plusG (afterVersion d) []
        (s3 ++ '-' :: (s4 ++ '-' :: (s5 ++ '-' :: (s6 ++ tailWhl)))) =
      some ⟨d, s3, none, s4, s5, s6⟩ := by
  rw [plusG_block (gated_afterVersion d) s3 h3 _ (segOk_append_ne_hyphen h4 _) [],
      plusG_afterVersion_none_R4 d h4 h5 (noHyphen_tailWhl h6) _]
  simp only [oalt_none_left, List.nil_append]
  exact afterVersion_some d s3 h4 h5 h6

theorem afterDist_some (d : List Char) (h3 : segOk s3) (h4 : segOk s4)
    (h5 : segOk s5) (h6 : segOk s6) :
    afterDist d ('-' :: (s3 ++ '-' :: (s4 ++ '-' :: (s5 ++ '-' :: (s6 ++ tailWhl))))) =
      some ⟨d, s3, none, s4, s5, s6⟩ := by
  show (if ('-' : Char) = '-' then
          plusG (afterVersion d) []
            (s3 ++ '-' :: (s4 ++ '-' :: (s5 ++ '-' :: (s6 ++ tailWhl))))
        else none) = _
  rw [if_pos rfl, plusG_afterVersion_some d h3 h4 h5 h6]

theorem afterDist_none_R6 (cap : List Char) (hr : '-' ∉ r6) :
    afterDist cap ('-' :: r6) = none := by
  show (if ('-' : Char) = '-' then plusG (afterVersion cap) [] r6 else none) = none
  rw [if_pos rfl, plusG_noHyphen (gated_afterVersion cap) r6 hr]

theorem afterDist_none_R5 (cap : List Char) (h5 : segOk s5) (hr : '-' ∉ r6) :
    afterDist cap ('-' :: (s5 ++ '-' :: r6)) = none := by
  show (if ('-' : Char) = '-' then
          plusG (afterVersion cap) [] (s5 ++ '-' :: r6) else none) = none
  rw [if_pos rfl, plusG_afterVersion_none_R5 cap h5 hr []]

theorem afterDist_none_R4 (cap : List Char) (h4 : segOk s4) (h5 : segOk s5)
    (hr : '-' ∉ r6) :
    afterDist cap ('-' :: (s4 ++ '-' :: (s5 ++ '-' :: r6))) = none := by
  show (if ('-' : Char) = '-' then
          plusG (afterVersion cap) [] (s4 ++ '-' :: (s5 ++ '-' :: r6))
        else none) = none
  rw [if_pos rfl, plusG_afterVersion_none_R4 cap h4 h5 hr []]

theorem plusG_afterDist_none_R5 (h5 : segOk s5) (hr : '-' ∉ r6) (acc : List Char) :
    plusG afterDist acc (s5 ++ '-' :: r6) = none := by
  rw [plusG_block gated_afterDist s5 h5 r6 (not_hyphen_head hr) acc,
      plusG_noHyphen gated_afterDist r6 hr]
  simp only [oalt_none_left]
  exact afterDist_none_R6 _ hr

theorem plusG_afterDist_none_R4 (h4 : segOk s4) (h5 : segOk s5) (hr : '-' ∉ r6)
    (acc : List Char) :
    plusG afterDist acc (s4 ++ '-' :: (s5 ++ '-' :: r6)) = none := by
  rw [plusG_block gated_afterDist s4 h4 _ (segOk_append_ne_hyphen h5 _) acc,
      plusG_afterDist_none_R5 h5 hr _]
  simp only [oalt_none_left]
  exact afterDist_none_R5 _ h5 hr

theorem plusG_afterDist_none_R3 (h3 : segOk s3) (h4 : segOk s4) (h5 : segOk s5)
    (hr : '-' ∉ r6) (acc : List Char) :
    plusG afterDist acc (s3 ++ '-' :: (s4 ++ '-' :: (s5 ++ '-' :: r6))) = none := by
  rw [plusG_block gated_afterDist s3 h3 _ (segOk_append_ne_hyphen h4 _) acc,
      plusG_afterDist_none_R4 h4 h5 hr _]
  simp only [oalt_none_left]
  exact afterDist_none_R4 _ h4 h5 hr

theorem plusG_afterDist_some_R2 (h2 : segOk s2) (h3 : segOk s3) (h4 : segOk s4)
    (h5 : segOk s5) (h6 : segOk s6) (acc : List Char) :
    plusG afterDist acc
        (s2 ++ '-' :: (s3 ++ '-' :: (s4 ++ '-' :: (s5 ++ '-' :: (s6 ++ tailWhl))))) =
      some ⟨acc ++ s2, s3, none, s4, s5, s6⟩ := by
  rw [plusG_block gated_afterDist s2 h2 _ (segOk_append_ne_hyphen h3 _) acc,
      plusG_afterDist_none_R3 h3 h4 h5 (noHyphen_tailWhl h6) _]
  simp only [oalt_none_left]
  exact afterDist_some _ h3 h4 h5 h6

/-- On a six-segment wheel filename the greedy `distribution` capture
swallows the first two segments, `version` captures the third and the
optional build-tag group never participates. -/
theorem matchWheelName_six_segments (h1 : segOk s1) (h2 : segOk s2) (h3 : segOk s3)
    (h4 : segOk s4) (h5 : segOk s5) (h6 : segOk s6) :
    matchWheelName
        (s1 ++ '-' :: (s2 ++ '-' :: (s3 ++ '-' :: (s4 ++ '-' ::
          (s5 ++ '-' :: (s6 ++ tailWhl)))))) =
      some ⟨s1 ++ '-' :: s2, s3, none, s4, s5, s6⟩ := by
  show plusG afterDist []
      (s1 ++ '-' :: (s2 ++ '-' :: (s3 ++ '-' :: (s4 ++ '-' ::
        (s5 ++ '-' :: (s6 ++ tailWhl)))))) = _
  rw [plusG_block gated_afterDist s1 h1 _ (segOk_append_ne_hyphen h2 _) [],
      plusG_afterDist_some_R2 h2 h3 h4 h5 h6 _]
  simp [List.append_assoc]

/-- Claim C2, counterexample: on the six-segment filename
`a-b-c-d-e-f.whl`, `parse_name` does not return the first segment as
`distribution` and the third as `build_tag`; the greedy regex instead
returns `a-b` as `distribution`, `c` as `version` and leaves
`build_tag` unset. -/
theorem claim2_counterexample :
    parse_name "a-b-c-d-e-f.whl" =
      Except.ok ⟨"a-b".toList, "c".toList, none, "d".toList,
                 "e".toList, "f".toList⟩ ∧
    ("a-b".toList ≠ "a".toList ∧
      (none : Option (List Char)) ≠ some ("c".toList)) :=
  ⟨rfl, by decide⟩

/-- Claim C2, amended: for every filename made of six nonempty
hyphen-free (and newline-free) segments followed by `.whl`, `parse_name`
returns the first two segments joined by a hyphen as `distribution`,
the third segment as `version`, `None` as `build_tag`, and the last
three segments as `python_tag`, `abi_tag` and `platform_tag`; the
optional build-tag group never participates. -/
theorem claim2_amended (s1 s2 s3 s4 s5 s6 : List Char) (h1 : segOk s1)
    (h2 : segOk s2) (h3 : segOk s3) (h4 : segOk s4) (h5 : segOk s5)
    (h6 : segOk s6) :
    parse_name (String.mk
        (s1 ++ '-' :: (s2 ++ '-' :: (s3 ++ '-' :: (s4 ++ '-' ::
          (s5 ++ '-' :: (s6 ++ tailWhl))))))) =
      Except.ok ⟨s1 ++ '-' :: s2, s3, none, s4, s5, s6⟩ := by
  have h := matchWheelName_six_segments h1 h2 h3 h4 h5 h6
  unfold parse_name
  rw [show (String.mk
        (s1 ++ '-' :: (s2 ++ '-' :: (s3 ++ '-' :: (s4 ++ '-' ::
          (s5 ++ '-' :: (s6 ++ tailWhl))))))).toList =
      s1 ++ '-' :: (s2 ++ '-' :: (s3 ++ '-' :: (s4 ++ '-' ::
        (s5 ++ '-' :: (s6 ++ tailWhl))))) from rfl, h]

/-- Claim C2, witness: the amended statement evaluated on the concrete
six-segment name `pkg-1.0-2-py3-none-any.whl`. -/
theorem claim2_witness :
    parse_name (String.mk
        ("pkg".toList ++ '-' :: ("1.0".toList ++ '-' :: ("2".toList ++ '-' ::
          ("py3".toList ++ '-' :: ("none".toList ++ '-' ::
            ("any".toList ++ tailWhl))))))) =
      Except.ok ⟨"pkg".toList ++ '-' :: "1.0".toList, "2".toList, none,
                 "py3".toList, "none".toList, "any".toList⟩ :=
  claim2_amended _ _ _ _ _ _ (by decide) (by decide) (by decide) (by decide)
    (by decide) (by decide)

/-! ## The metadata reader `_read_wheel_metadata`

`for line in f: entry = line.split(':');
 if len(entry) == 2: metadata[entry[0].strip()] = entry[1].strip()`

`str.split(':')` splits at every colon (no maxsplit), so a line
contributes an entry exactly when it contains exactly one colon.
-/

/-- Python `str.split(sep)` for a one-character separator: split at
every occurrence, keeping empty pieces. -/
def splitOnChar (sep : Char) : List Char → List (List Char)
  | [] => [[]]
  | c :: rest =>
    if c = sep then [] :: splitOnChar sep rest
    else
      match splitOnChar sep rest with
      | [] => [[c]]
      | h :: t => (c :: h) :: t

/-- Python `str.isspace` characters relevant to `str.strip()` (ASCII). -/
def pySpace (c : Char) : Bool :=
  c = ' ' || c = '\t' || c = '\n' || c = '\r' || c = '\x0b' || c = '\x0c'

/-- Python `str.strip()`: remove leading and trailing whitespace. -/
def pyStrip (l : List Char) : List Char :=
  ((l.dropWhile pySpace).reverse.dropWhile pySpace).reverse

/-- Python `dict` assignment `m[k] = v` on an insertion-ordered
association list: replace the value in place if the key exists,
append otherwise. -/
def dictSet (m : List (List Char × List Char)) (k v : List Char) :
    List (List Char × List Char) :=
  match m with
  | [] => [(k, v)]
  | (k0, v0) :: rest => if k0 = k then (k0, v) :: rest else (k0, v0) :: dictSet rest k v

/-- One iteration of the `_read_wheel_metadata` loop body. -/
def read_wheel_metadata_line (m : List (List Char × List Char)) (line : List Char) :
    List (List Char × List Char) :=
  match splitOnChar ':' line with
  | [k, v] => dictSet m (pyStrip k) (pyStrip v)
  | _ => m

/-- Model of `_read_wheel_metadata`, taking the lines of the `WHEEL`
descriptor file. -/
def read_wheel_metadata (lines : List (List Char)) : List (List Char × List Char) :=
  lines.foldl read_wheel_metadata_line []

theorem splitOnChar_length (sep : Char) :
    ∀ (l : List Char), (splitOnChar sep l).length = l.count sep + 1 := by
  intro l
  induction l with
  | nil => rfl
  | cons c rest ih =>
    show (if c = sep then [] :: splitOnChar sep rest
          else match splitOnChar sep rest with
               | [] => [[c]]
               | a :: b => (c :: a) :: b).length = _
    by_cases hc : c = sep
    · rw [if_pos hc]
      subst hc
      simp [List.count_cons, ih]
    · rw [if_neg hc]
      cases hsp : splitOnChar sep rest with
      | nil => rw [hsp] at ih; simp at ih
      | cons a b =>
        rw [hsp] at ih
        have hbe : (sep == c) = false := by
          simp only [beq_eq_false_iff_ne, ne_eq]
          exact fun e => hc e.symm
        simp only [List.length_cons] at ih ⊢
        simp [List.count_cons, hbe, ih, hc]

theorem splitOnChar_of_not_mem (sep : Char) :
    ∀ {l : List Char}, sep ∉ l → splitOnChar sep l = [l] := by
  intro l
  induction l with
  | nil => intro _; rfl
  | cons c rest ih =>
    intro h
    have hc : c ≠ sep := fun e => h (e ▸ List.mem_cons_self c rest)
    have hr : sep ∉ rest := fun e => h (List.mem_cons_of_mem _ e)
    show (if c = sep then [] :: splitOnChar sep rest
          else match splitOnChar sep rest with
               | [] => [[c]]
               | a :: b => (c :: a) :: b) = _
    rw [if_neg hc, ih hr]

theorem splitOnChar_count_one (sep : Char) :
    ∀ {l : List Char}, l.count sep = 1 →
    splitOnChar sep l =
      [l.takeWhile (fun c => c != sep), (l.dropWhile (fun c => c != sep)).tail] := by
  intro l
  induction l with
  | nil => intro h; simp at h
  | cons c rest ih =>
    intro h
    show (if c = sep then [] :: splitOnChar sep rest
          else match splitOnChar sep rest with
               | [] => [[c]]
               | a :: b => (c :: a) :: b) = _
    by_cases hc : c = sep
    · subst hc
      have h0 : rest.count c = 0 := by
        simp [List.count_cons] at h
        exact h
      have hr : c ∉ rest := List.count_eq_zero.mp h0
      rw [if_pos rfl, splitOnChar_of_not_mem c hr]
      simp
    · have hbe : (sep == c) = false := by
        simp only [beq_eq_false_iff_ne, ne_eq]
        exact fun e => hc e.symm
      have hcount : rest.count sep = 1 := by
        simpa [List.count_cons, hbe, hc] using h
      have hne : (c != sep) = true := by
        simp only [bne_iff_ne, ne_eq]
        exact hc
      rw [if_neg hc, ih hcount]
      simp [hne]

/-- Claim C3, counterexample: the line `Tag: py3:none` contains a colon,
yet the metadata reader records no entry for it, because
`line.split(':')` yields three parts and only two-part splits are kept. -/
theorem claim3_counterexample :
    ':' ∈ ("Tag: py3:none".toList) ∧
    read_wheel_metadata [("Tag: py3:none".toList)] = [] := by decide

/-- Claim C3, amended: a line of the `WHEEL` descriptor yields exactly
one metadata entry precisely when it contains exactly one colon, in
which case the stripped part before the colon maps to the stripped part
after it; lines with no colon or with two or more colons are ignored. -/
theorem claim3_amended (line : List Char) :
    read_wheel_metadata [line] =
      (if line.count ':' = 1 then
        [(pyStrip (line.takeWhile (fun c => c != ':')),
          pyStrip ((line.dropWhile (fun c => c != ':')).tail))]
      else []) := by
  show read_wheel_metadata_line [] line = _
  by_cases hc : line.count ':' = 1
  · rw [if_pos hc]
    show (match splitOnChar ':' line with
          | [k, v] => dictSet [] (pyStrip k) (pyStrip v)
          | _ => ([] : List (List Char × List Char))) = _
    rw [splitOnChar_count_one ':' hc]
    rfl
  · rw [if_neg hc]
    have hlen := splitOnChar_length ':' line
    show (match splitOnChar ':' line with
          | [k, v] => dictSet [] (pyStrip k) (pyStrip v)
          | _ => ([] : List (List Char × List Char))) = _
    rcases hsp : splitOnChar ':' line with _ | ⟨k, _ | ⟨v, _ | ⟨w, t⟩⟩⟩
    · rfl
    · rfl
    · exfalso
      rw [hsp] at hlen
      simp only [List.length_cons, List.length_nil] at hlen
      omega
    · rfl

/-! ## The `Wheel-Version` check in `build`

`if tuple(map(int, metadata['Wheel-Version'].split('.'))) > _SUPPORTED_WHEEL_VERSION:
     raise InstallException(...)`
with `_SUPPORTED_WHEEL_VERSION = (1, 0)`.  Python compares tuples
lexicographically, a proper prefix being smaller.
-/

def supported_wheel_version : List Nat := [1, 0]

/-- Python `int()` restricted to nonempty strings of decimal digits
(the only shape a numeric version component can take). -/
def pyIntDigits (l : List Char) : Option Nat :=
  if l = [] then none
  else
    l.foldl
      (fun acc c =>
        match acc with
        | none => none
        | some n => if c.isDigit then some (n * 10 + (c.toNat - '0'.toNat)) else none)
      (some 0)

/-- The tuple `tuple(map(int, v.split('.')))`; `none` models the
`ValueError` raised by `int` on a non-numeric component. -/
def parseVersionTuple (v : List Char) : Option (List Nat) :=
  (splitOnChar '.' v).mapM pyIntDigits

/-- Python comparison of numeric tuples: lexicographic, the first
differing component decides, a proper prefix is smaller. -/
def pyTupleCmp : List Nat → List Nat → Ordering
  | [], [] => .eq
  | [], _ :: _ => .lt
  | _ :: _, [] => .gt
  | a :: as, b :: bs => if a < b then .lt else if b < a then .gt else pyTupleCmp as bs

def pyTupleGt (x y : List Nat) : Bool :=
  match pyTupleCmp x y with
  | .gt => true
  | _ => false

/-- The `Wheel-Version` validation performed by `build` on the declared
version string. -/
def wheel_version_check (v : List Char) : Except String Unit :=
  match parseVersionTuple v with
  | none => Except.error "invalid literal for int() with base 10"
  | some t =>
    if pyTupleGt t supported_wheel_version then
      Except.error ("Unsupported wheel version: " ++ String.mk v)
    else Except.ok ()

/-- Specification-side reading of "the declared version, compared
component-wise as a numeric tuple, exceeds the ceiling": at the first
differing component the declared version is larger, or the declared
version extends the ceiling as a proper prefix. -/
def tupleExceeds (x y : List Nat) : Prop :=
  (∃ p a b as bs, x = p ++ a :: as ∧ y = p ++ b :: bs ∧ b < a) ∨
  (∃ a as, x = y ++ a :: as)

theorem pyTupleGt_iff :
    ∀ (x y : List Nat), pyTupleGt x y = true ↔ tupleExceeds x y := by
  intro x
  induction x with
  | nil =>
    intro y
    constructor
    · intro h
      cases y with
      | nil => simp [pyTupleGt, pyTupleCmp] at h
      | cons b bs => simp [pyTupleGt, pyTupleCmp] at h
    · intro h
      rcases h with ⟨p, a, b, as, bs, hx, _, _⟩ | ⟨a, as, hx⟩
      · exact absurd hx (by simp)
      · exact absurd hx (by simp)
  | cons a as ih =>
    intro y
    cases y with
    | nil =>
      constructor
      · intro _
        exact Or.inr ⟨a, as, rfl⟩
      · intro _
        rfl
    | cons b bs =>
      constructor
      · intro h
        by_cases hab : a < b
        · simp [pyTupleGt, pyTupleCmp, hab] at h
        · by_cases hba : b < a
          · exact Or.inl ⟨[], a, b, as, bs, rfl, rfl, hba⟩
          · have heq : a = b := Nat.le_antisymm (Nat.le_of_not_lt hba) (Nat.le_of_not_lt hab)
            have h2 : pyTupleGt as bs = true := by
              simpa [pyTupleGt, pyTupleCmp, hab, hba] using h
            rcases (ih bs).mp h2 with ⟨p, a2, b2, as2, bs2, hx, hy, hlt⟩ | ⟨a2, as2, hx⟩
            · exact Or.inl ⟨a :: p, a2, b2, as2, bs2, by simp [hx], by simp [hy, heq], hlt⟩
            · exact Or.inr ⟨a2, as2, by simp [hx, heq]⟩
      · intro h
        rcases h with ⟨p, a2, b2, as2, bs2, hx, hy, hlt⟩ | ⟨a2, as2, hx⟩
        · cases p with
          | nil =>
            simp only [List.nil_append, List.cons.injEq] at hx hy
            obtain ⟨ha, has⟩ := hx
            obtain ⟨hb, hbs⟩ := hy
            subst ha; subst hb
            have hnab : ¬ a < b := Nat.not_lt_of_le (Nat.le_of_lt hlt)
            simp [pyTupleGt, pyTupleCmp, hnab, hlt]
          | cons c p2 =>
            simp only [List.cons_append, List.cons.injEq] at hx hy
            obtain ⟨ha, has⟩ := hx
            obtain ⟨hb, hbs⟩ := hy
            have heq : a = b := by rw [ha, hb]
            have h2 : pyTupleGt as bs = true :=
              (ih bs).mpr (Or.inl ⟨p2, a2, b2, as2, bs2, has, hbs, hlt⟩)
            simp [pyTupleGt, pyTupleCmp, heq, Nat.lt_irrefl]
            simpa [pyTupleGt] using h2
        · simp only [List.cons_append, List.cons.injEq] at hx
          obtain ⟨hab, has⟩ := hx
          have h2 : pyTupleGt as bs = true := (ih bs).mpr (Or.inr ⟨a2, as2, has⟩)
          simp [pyTupleGt, pyTupleCmp, hab, Nat.lt_irrefl]
          simpa [pyTupleGt] using h2

/-- Claim C4: when the `Wheel-Version` metadata value parses as a
numeric tuple, `build`'s check raises the unsupported-version error
exactly when the parsed tuple exceeds the supported ceiling `(1, 0)` in
Python tuple order (first differing component larger, or a proper
extension of the ceiling), and passes otherwise. -/
theorem claim4_wheel_version (v : List Char) (t : List Nat)
    (h : parseVersionTuple v = some t) :
    (wheel_version_check v =
        Except.error ("Unsupported wheel version: " ++ String.mk v) ↔
      tupleExceeds t supported_wheel_version) ∧
    (wheel_version_check v = Except.ok () ↔
      ¬ tupleExceeds t supported_wheel_version) := by
  have hgt := pyTupleGt_iff t supported_wheel_version
  have hcheck : wheel_version_check v =
      (if pyTupleGt t supported_wheel_version then
        Except.error ("Unsupported wheel version: " ++ String.mk v)
       else Except.ok ()) := by
    unfold wheel_version_check
    rw [h]
  rw [hcheck]
  by_cases hb : pyTupleGt t supported_wheel_version = true
  · rw [if_pos hb]
    have hex := hgt.mp hb
    constructor
    · exact ⟨fun _ => hex, fun _ => rfl⟩
    · constructor
      · intro he; cases he
      · intro hn; exact absurd hex hn
  · rw [if_neg hb]
    have hnex : ¬ tupleExceeds t supported_wheel_version := fun he => hb (hgt.mpr he)
    constructor
    · constructor
      · intro he; cases he
      · intro hex; exact absurd hex hnex
    · exact ⟨fun _ => hnex, fun _ => rfl⟩

/-- Claim C4, witness: `Wheel-Version: 1.0` passes (its tuple does not
exceed the ceiling) and `Wheel-Version: 2.0` exceeds the ceiling. -/
theorem claim4_witness :
    ¬ tupleExceeds [1, 0] supported_wheel_version ∧
      tupleExceeds [2, 0] supported_wheel_version :=
  ⟨(claim4_wheel_version ("1.0".toList) [1, 0] rfl).2.mp rfl,
   (claim4_wheel_version ("2.0".toList) [2, 0] rfl).1.mp rfl⟩

/-! ## Root-Is-Purelib role selection in `install`

`pkg_dir = destdir_path('purelib' if metadata['Root-Is-Purelib'] == 'true'
                        else 'platlib')`
-/

/-- Python `dict` lookup `m[k]` on the association-list model; `none`
models the `KeyError`. -/
def alookup (m : List (List Char × List Char)) (k : List Char) : Option (List Char) :=
  match m with
  | [] => none
  | (k0, v) :: rest => if k0 = k then some v else alookup rest k

/-- The library role chosen by `install` for the root staged payload. -/
def rootRole (m : List (List Char × List Char)) : Option String :=
  (alookup m ("Root-Is-Purelib".toList)).map
    (fun v => if v = "true".toList then "purelib" else "platlib")

/-- Claim C5: the root payload is routed to the `purelib` role exactly
when the cached metadata maps `Root-Is-Purelib` to the literal string
`true`; every other value (for example `True` or `false`) routes it to
`platlib`. -/
theorem claim5_root_is_purelib (m : List (List Char × List Char)) (v : List Char)
    (h : alookup m ("Root-Is-Purelib".toList) = some v) :
    (rootRole m = some "purelib" ↔ v = "true".toList) ∧
    (v ≠ "true".toList → rootRole m = some "platlib") := by
  have hroot : rootRole m =
      some (if v = "true".toList then "purelib" else "platlib") := by
    unfold rootRole
    rw [h]
    rfl
  rw [hroot]
  constructor
  · constructor
    · intro he
      by_contra hne
      rw [if_neg hne] at he
      exact absurd (Option.some.inj he) (by decide)
    · intro he
      rw [if_pos he]
  · intro hne
    rw [if_neg hne]

/-- Claim C5, witness: the value `True` (capitalised, hence not the
literal `true`) routes the root payload to `platlib`. -/
theorem claim5_witness :
    rootRole [("Root-Is-Purelib".toList, "True".toList)] = some "platlib" :=
  (claim5_root_is_purelib [("Root-Is-Purelib".toList, "True".toList)]
    ("True".toList) rfl).2 (by decide)

/-! ## The installation-path resolver `_destdir_path`

`path = sysconfig.get_path(lib)
 if not path: raise InstallException("Couldn't find {}".format(lib))
 return os.path.join(destdir, os.sep.join(path.split(os.sep)[1:]))`

The scheme (`sysconfig.get_path`) is the host environment's collaborator
and is passed as a function; `os.sep` is `/`.
-/

/-- CPython `posixpath.join` for two components. -/
def osPathJoin (a b : List Char) : List Char :=
  if b.head? = some '/' then b
  else if a = [] ∨ a.getLast? = some '/' then a ++ b
  else a ++ '/' :: b

/-- Python `os.sep.join(parts)`. -/
def joinSep (sep : Char) : List (List Char) → List Char
  | [] => []
  | [p] => p
  | p :: rest => p ++ sep :: joinSep sep rest

/-- Model of `_destdir_path`: strip the scheme path's first
`os.sep`-separated component and rejoin the remainder under `destdir`.
`scheme lib = none` models a role the environment does not configure. -/
def destdir_path (scheme : List Char → Option (List Char)) (destdir : List Char)
    (lib : List Char) : Except String (List Char) :=
  match scheme lib with
  | none => Except.error ("Couldn't find " ++ String.mk lib)
  | some p =>
    if p = [] then Except.error ("Couldn't find " ++ String.mk lib)
    else Except.ok (osPathJoin destdir (joinSep '/' ((splitOnChar '/' p).tail)))

theorem joinSep_cons_head (sep : Char) (c : Char) (h : List Char)
    (t : List (List Char)) :
    joinSep sep ((c :: h) :: t) = c :: joinSep sep (h :: t) := by
  cases t <;> rfl

theorem joinSep_splitOnChar (sep : Char) :
    ∀ (l : List Char), joinSep sep (splitOnChar sep l) = l := by
  intro l
  induction l with
  | nil => rfl
  | cons c rest ih =>
    show joinSep sep
        (if c = sep then [] :: splitOnChar sep rest
         else match splitOnChar sep rest with
              | [] => [[c]]
              | a :: b => (c :: a) :: b) = c :: rest
    by_cases hc : c = sep
    · rw [if_pos hc]
      cases hr : splitOnChar sep rest with
      | nil =>
        have := splitOnChar_length sep rest
        rw [hr] at this
        simp at this
      | cons a b =>
        show joinSep sep ([] :: a :: b) = c :: rest
        show [] ++ sep :: joinSep sep (a :: b) = c :: rest
        rw [hr] at ih
        rw [List.nil_append, ih, hc]
    · rw [if_neg hc]
      cases hr : splitOnChar sep rest with
      | nil =>
        have := splitOnChar_length sep rest
        rw [hr] at this
        simp at this
      | cons a b =>
        rw [hr] at ih
        rw [joinSep_cons_head, ih]

/-- Claim C8, counterexample: a configured absolute path beginning with
a double slash (`//usr`) is stripped of only its first (empty)
component, leaving an absolute remainder, so `os.path.join` discards
`destdir` and the resolved path escapes the destination root. -/
theorem claim8_counterexample :
    destdir_path (fun _ => some ("//usr".toList)) ("/dest".toList)
        ("purelib".toList) = Except.ok ("/usr".toList) ∧
    ¬ ("/dest".toList <+: "/usr".toList) := by
  refine ⟨rfl, ?_⟩
  decide

/-- Claim C8, amended: for every role whose scheme lookup yields a
nonempty absolute path with a single leading slash, the resolver
returns the destination root joined with the path stripped of its
leading filesystem-root component, which lies under `destdir`; and for
every role whose scheme lookup yields no configured path (or an empty
one) the resolver fails with an explicit error rather than defaulting
silently. -/
theorem claim8_amended (scheme : List Char → Option (List Char))
    (destdir lib rest : List Char) (h : scheme lib = some ('/' :: rest))
    (hr : rest.head? ≠ some '/') :
    (destdir_path scheme destdir lib = Except.ok (osPathJoin destdir rest) ∧
      destdir <+: osPathJoin destdir rest) ∧
    (∀ lib2, scheme lib2 = none ∨ scheme lib2 = some [] →
      destdir_path scheme destdir lib2 =
        Except.error ("Couldn't find " ++ String.mk lib2)) := by
  refine ⟨⟨?_, ?_⟩, ?_⟩
  · have hsplit : splitOnChar '/' ('/' :: rest) = [] :: splitOnChar '/' rest := by
      show (if ('/' : Char) = '/' then [] :: splitOnChar '/' rest
            else match splitOnChar '/' rest with
                 | [] => [['/']]
                 | a :: b => ('/' :: a) :: b) = _
      rw [if_pos rfl]
    have hd : destdir_path scheme destdir lib =
        Except.ok (osPathJoin destdir
          (joinSep '/' ((splitOnChar '/' ('/' :: rest)).tail))) := by
      unfold destdir_path
      rw [h]
      rfl
    rw [hd, hsplit]
    simp only [List.tail_cons]
    rw [joinSep_splitOnChar]
  · unfold osPathJoin
    rw [if_neg hr]
    by_cases hd2 : destdir = [] ∨ destdir.getLast? = some '/'
    · rw [if_pos hd2]
      exact List.prefix_append _ _
    · rw [if_neg hd2]
      exact List.prefix_append _ _
  · intro lib2 h2
    rcases h2 with h2 | h2
    · unfold destdir_path
      rw [h2]
    · unfold destdir_path
      rw [h2]
      rfl

/-- Claim C8, witness: the amended statement applied to a scheme that
configures `purelib` as `/usr/lib` and nothing else, with destination
root `/dest`. -/
theorem claim8_witness :
    destdir_path
        (fun l => if l = "purelib".toList then some ("/usr/lib".toList) else none)
        ("/dest".toList) ("purelib".toList) =
      Except.ok (osPathJoin ("/dest".toList) ("usr/lib".toList)) ∧
    ("/dest".toList <+: osPathJoin ("/dest".toList) ("usr/lib".toList)) :=
  (claim8_amended
    (fun l => if l = "purelib".toList then some ("/usr/lib".toList) else none)
    ("/dest".toList) ("purelib".toList) ("usr/lib".toList)
    (by decide) (by decide)).1

/-! ## The directory merger `_copy_dir` on trees

`def _copy_dir(src, dst, ignore=[]):
     shutil.copytree(src, dst, dirs_exist_ok=True, ignore=lambda *_: ignore)`

Directory trees are modelled as ordered entry lists (new entries are
created at the end, existing ones overwritten in place).  The ignore
callable returns the same list at every level, so the ignore list
applies at every depth.  `copytree` errors — copying a file over a
directory (`IsADirectoryError`) or a directory over a file
(`FileExistsError` from `os.makedirs`) — abort the merge here; CPython
collects them and raises at the end, which agrees on successful runs.
-/

mutual
inductive FsNode where
  | file : String → FsNode
  | dir : FsEntries → FsNode

inductive FsEntries where
  | nil : FsEntries
  | cons : String → FsNode → FsEntries → FsEntries
end

def lookupE : FsEntries → String → Option FsNode
  | .nil, _ => none
  | .cons n v rest, m => if n = m then some v else lookupE rest m

def updateE : FsEntries → String → FsNode → FsEntries
  | .nil, _, _ => .nil
  | .cons n v rest, m, w =>
    if n = m then .cons n w rest else .cons n v (updateE rest m w)

def appendE : FsEntries → String → FsNode → FsEntries
  | .nil, m, w => .cons m w .nil
  | .cons n v rest, m, w => .cons n v (appendE rest m w)

def namesE : FsEntries → List String
  | .nil => []
  | .cons n _ rest => n :: namesE rest

mutual
/-- Well-formed node: directory listings never repeat a name. -/
def wfNode : FsNode → Bool
  | .file _ => true
  | .dir ch => wfEntries ch

def wfEntries : FsEntries → Bool
  | .nil => true
  | .cons n v rest =>
    !(decide (n ∈ namesE rest)) && wfNode v && wfEntries rest
end

mutual
/-- Merge one source node onto what the destination holds under the
same name (`none`: nothing there yet). -/
def mergeNode (ign : List String) : FsNode → Option FsNode → Except String FsNode
  | .file c, none => .ok (.file c)
  | .file c, some (.file _) => .ok (.file c)
  | .file _, some (.dir _) => .error "IsADirectoryError"
  | .dir ch, none =>
    match mergeEntries ign ch .nil with
    | .error e => .error e
    | .ok e => .ok (.dir e)
  | .dir ch, some (.dir dch) =>
    match mergeEntries ign ch dch with
    | .error e => .error e
    | .ok e => .ok (.dir e)
  | .dir _, some (.file _) => .error "FileExistsError"

/-- Model of `_copy_dir`: merge the source listing into the destination
listing, skipping ignored names, overwriting files in place and merging
directories recursively. -/
def mergeEntries (ign : List String) : FsEntries → FsEntries → Except String FsEntries
  | .nil, dst => .ok dst
  | .cons n v rest, dst =>
    if n ∈ ign then mergeEntries ign rest dst
    else
      match lookupE dst n with
      | none =>
        match mergeNode ign v none with
        | .error e => .error e
        | .ok w => mergeEntries ign rest (appendE dst n w)
      | some old =>
        match mergeNode ign v (some old) with
        | .error e => .error e
        | .ok w => mergeEntries ign rest (updateE dst n w)
end

theorem lookupE_cons (m : String) (v : FsNode) (rest : FsEntries) (n : String) :
    lookupE (.cons m v rest) n = (if m = n then some v else lookupE rest n) := rfl

theorem lookupE_appendE_self :
    ∀ (dst : FsEntries) (n : String) (w : FsNode),
    lookupE dst n = none → lookupE (appendE dst n w) n = some w
  | .nil, n, w, _ => by
    show (if n = n then some w else none) = some w
    rw [if_pos rfl]
  | .cons m v rest, n, w, h => by
    show (if m = n then some v else lookupE (appendE rest n w) n) = some w
    rw [lookupE_cons] at h
    by_cases hm : m = n
    · rw [if_pos hm] at h; cases h
    · rw [if_neg hm] at h
      rw [if_neg hm, lookupE_appendE_self rest n w h]

theorem lookupE_appendE_ne :
    ∀ (dst : FsEntries) (n m : String) (w : FsNode),
    m ≠ n → lookupE (appendE dst n w) m = lookupE dst m
  | .nil, n, m, w, h => by
    show (if n = m then some w else none) = none
    rw [if_neg (fun e => h e.symm)]
  | .cons n0 v rest, n, m, w, h => by
    show (if n0 = m then some v else lookupE (appendE rest n w) m) =
      (if n0 = m then some v else lookupE rest m)
    by_cases h0 : n0 = m
    · rw [if_pos h0, if_pos h0]
    · rw [if_neg h0, if_neg h0, lookupE_appendE_ne rest n m w h]

theorem lookupE_updateE_self :
    ∀ (dst : FsEntries) (n : String) (w old : FsNode),
    lookupE dst n = some old → lookupE (updateE dst n w) n = some w
  | .nil, _, _, _, h => by cases h
  | .cons m v rest, n, w, old, h => by
    rw [lookupE_cons] at h
    by_cases hm : m = n
    · show lookupE (if m = n then .cons m w rest else .cons m v (updateE rest n w)) n
        = some w
      rw [if_pos hm, lookupE_cons, if_pos hm]
    · rw [if_neg hm] at h
      show lookupE (if m = n then .cons m w rest else .cons m v (updateE rest n w)) n
        = some w
      rw [if_neg hm, lookupE_cons, if_neg hm,
        lookupE_updateE_self rest n w old h]

theorem lookupE_updateE_ne :
    ∀ (dst : FsEntries) (n m : String) (w : FsNode),
    m ≠ n → lookupE (updateE dst n w) m = lookupE dst m
  | .nil, _, _, _, _ => rfl
  | .cons n0 v rest, n, m, w, h => by
    by_cases h0 : n0 = n
    · show lookupE (if n0 = n then .cons n0 w rest else .cons n0 v (updateE rest n w)) m
        = _
      rw [if_pos h0, lookupE_cons, lookupE_cons]
      have hnm : n0 ≠ m := fun e => h (e ▸ h0)
      rw [if_neg hnm, if_neg hnm]
    · show lookupE (if n0 = n then .cons n0 w rest else .cons n0 v (updateE rest n w)) m
        = _
      rw [if_neg h0, lookupE_cons, lookupE_cons]
      by_cases h1 : n0 = m
      · rw [if_pos h1, if_pos h1]
      · rw [if_neg h1, if_neg h1, lookupE_updateE_ne rest n m w h]

theorem updateE_self :
    ∀ (dst : FsEntries) (n : String) (w : FsNode),
    lookupE dst n = some w → updateE dst n w = dst
  | .nil, _, _, _ => rfl
  | .cons m v rest, n, w, h => by
    rw [lookupE_cons] at h
    by_cases hm : m = n
    · show (if m = n then FsEntries.cons m w rest
            else .cons m v (updateE rest n w)) = _
      rw [if_pos hm] at h
      rw [if_pos hm, Option.some.inj h]
    · show (if m = n then FsEntries.cons m w rest
            else .cons m v (updateE rest n w)) = _
      rw [if_neg hm] at h
      rw [if_neg hm, updateE_self rest n w h]

theorem mergeEntries_cons (ign : List String) (m : String) (v : FsNode)
    (rest dst : FsEntries) :
    mergeEntries ign (.cons m v rest) dst =
      (if m ∈ ign then mergeEntries ign rest dst
       else match lookupE dst m with
            | none =>
              match mergeNode ign v none with
              | .error e => .error e
              | .ok w => mergeEntries ign rest (appendE dst m w)
            | some old =>
              match mergeNode ign v (some old) with
              | .error e => .error e
              | .ok w => mergeEntries ign rest (updateE dst m w)) := by
  rw [mergeEntries]

theorem mergeEntries_cons_ign (ign : List String) (m : String) (v : FsNode)
    (rest dst : FsEntries) (hig : m ∈ ign) :
    mergeEntries ign (.cons m v rest) dst = mergeEntries ign rest dst := by
  rw [mergeEntries_cons, if_pos hig]

theorem mergeEntries_cons_new_ok (ign : List String) (m : String) (v : FsNode)
    (rest dst : FsEntries) (w : FsNode) (hig : m ∉ ign)
    (hl : lookupE dst m = none) (hm : mergeNode ign v none = .ok w) :
    mergeEntries ign (.cons m v rest) dst =
      mergeEntries ign rest (appendE dst m w) := by
  rw [mergeEntries_cons, if_neg hig, hl, hm]

theorem mergeEntries_cons_new_err (ign : List String) (m : String) (v : FsNode)
    (rest dst : FsEntries) (e : String) (hig : m ∉ ign)
    (hl : lookupE dst m = none) (hm : mergeNode ign v none = .error e) :
    mergeEntries ign (.cons m v rest) dst = .error e := by
  rw [mergeEntries_cons, if_neg hig, hl, hm]

theorem mergeEntries_cons_found_ok (ign : List String) (m : String) (v : FsNode)
    (rest dst : FsEntries) (old w : FsNode) (hig : m ∉ ign)
    (hl : lookupE dst m = some old) (hm : mergeNode ign v (some old) = .ok w) :
    mergeEntries ign (.cons m v rest) dst =
      mergeEntries ign rest (updateE dst m w) := by
  rw [mergeEntries_cons, if_neg hig, hl]
  show (match mergeNode ign v (some old) with
        | Except.error e => Except.error e
        | Except.ok w => mergeEntries ign rest (updateE dst m w)) =
      mergeEntries ign rest (updateE dst m w)
  rw [hm]

theorem mergeEntries_cons_found_err (ign : List String) (m : String) (v : FsNode)
    (rest dst : FsEntries) (old : FsNode) (e : String) (hig : m ∉ ign)
    (hl : lookupE dst m = some old) (hm : mergeNode ign v (some old) = .error e) :
    mergeEntries ign (.cons m v rest) dst = .error e := by
  rw [mergeEntries_cons, if_neg hig, hl]
  show (match mergeNode ign v (some old) with
        | Except.error e2 => Except.error e2
        | Except.ok w => mergeEntries ign rest (updateE dst m w)) =
      Except.error e
  rw [hm]

/-- Names not named by the source are untouched by a merge. -/
theorem mergeEntries_frame (ign : List String) :
    ∀ (src : FsEntries) (dst d : FsEntries) (n : String),
    mergeEntries ign src dst = .ok d → n ∉ namesE src →
    lookupE d n = lookupE dst n
  | .nil, dst, d, n, h, _ => by
    cases h
    rfl
  | .cons m v rest, dst, d, n, h, hn => by
    have hnm : n ≠ m := fun e => hn (e ▸ List.mem_cons_self m (namesE rest))
    have hnr : n ∉ namesE rest := fun e => hn (List.mem_cons_of_mem _ e)
    by_cases hig : m ∈ ign
    · rw [mergeEntries_cons_ign ign m v rest dst hig] at h
      exact mergeEntries_frame ign rest dst d n h hnr
    · cases hl : lookupE dst m with
      | none =>
        cases hm : mergeNode ign v none with
        | error e =>
          rw [mergeEntries_cons_new_err ign m v rest dst e hig hl hm] at h
          cases h
        | ok w =>
          rw [mergeEntries_cons_new_ok ign m v rest dst w hig hl hm] at h
          rw [mergeEntries_frame ign rest _ d n h hnr,
            lookupE_appendE_ne dst m n w hnm]
      | some old =>
        cases hm : mergeNode ign v (some old) with
        | error e =>
          rw [mergeEntries_cons_found_err ign m v rest dst old e hig hl hm] at h
          cases h
        | ok w =>
          rw [mergeEntries_cons_found_ok ign m v rest dst old w hig hl hm] at h
          rw [mergeEntries_frame ign rest _ d n h hnr,
            lookupE_updateE_ne dst m n w hnm]

theorem mergeNode_dir_none_ok (ign : List String) (ch : FsEntries) (e : FsEntries)
    (h : mergeEntries ign ch .nil = .ok e) :
    mergeNode ign (.dir ch) none = .ok (.dir e) := by
  show (match mergeEntries ign ch .nil with
        | Except.error e2 => Except.error e2
        | Except.ok e2 => Except.ok (FsNode.dir e2)) = Except.ok (FsNode.dir e)
  rw [h]

theorem mergeNode_dir_none_err (ign : List String) (ch : FsEntries) (e : String)
    (h : mergeEntries ign ch .nil = .error e) :
    mergeNode ign (.dir ch) none = .error e := by
  show (match mergeEntries ign ch .nil with
        | Except.error e2 => Except.error e2
        | Except.ok e2 => Except.ok (FsNode.dir e2)) = Except.error e
  rw [h]

theorem mergeNode_dir_dir_ok (ign : List String) (ch dch : FsEntries) (e : FsEntries)
    (h : mergeEntries ign ch dch = .ok e) :
    mergeNode ign (.dir ch) (some (.dir dch)) = .ok (.dir e) := by
  show (match mergeEntries ign ch dch with
        | Except.error e2 => Except.error e2
        | Except.ok e2 => Except.ok (FsNode.dir e2)) = Except.ok (FsNode.dir e)
  rw [h]

theorem mergeNode_dir_dir_err (ign : List String) (ch dch : FsEntries) (e : String)
    (h : mergeEntries ign ch dch = .error e) :
    mergeNode ign (.dir ch) (some (.dir dch)) = .error e := by
  show (match mergeEntries ign ch dch with
        | Except.error e2 => Except.error e2
        | Except.ok e2 => Except.ok (FsNode.dir e2)) = Except.error e
  rw [h]

theorem wfEntries_cons {n : String} {v : FsNode} {rest : FsEntries}
    (h : wfEntries (.cons n v rest) = true) :
    n ∉ namesE rest ∧ wfNode v = true ∧ wfEntries rest = true := by
  have h2 : (!(decide (n ∈ namesE rest)) && wfNode v && wfEntries rest) = true := h
  simp only [Bool.and_eq_true, Bool.not_eq_true'] at h2
  exact ⟨of_decide_eq_false h2.1.1, h2.1.2, h2.2⟩

mutual
/-- Remerging a node onto its own merge result gives the same result. -/
theorem mergeNode_idem (ign : List String) :
    ∀ (v : FsNode) (old : Option FsNode) (w : FsNode),
    wfNode v = true → mergeNode ign v old = .ok w →
    mergeNode ign v (some w) = .ok w
  | .file c, none, w, _, h => by
    have h2 : Except.ok (FsNode.file c) = Except.ok w := h
    injection h2 with hw
    subst hw
    rfl
  | .file c, some (.file c0), w, _, h => by
    have h2 : Except.ok (FsNode.file c) = Except.ok w := h
    injection h2 with hw
    subst hw
    rfl
  | .file c, some (.dir dch), w, _, h => by
    have h2 : (Except.error "IsADirectoryError" : Except String FsNode) =
        Except.ok w := h
    cases h2
  | .dir ch, none, w, hw, h => by
    cases he : mergeEntries ign ch .nil with
    | error e =>
      rw [mergeNode_dir_none_err ign ch e he] at h
      cases h
    | ok e =>
      rw [mergeNode_dir_none_ok ign ch e he] at h
      injection h with hw2
      subst hw2
      exact mergeNode_dir_dir_ok ign ch e e (mergeEntries_idem ign ch .nil e hw he)
  | .dir ch, some (.dir dch), w, hw, h => by
    cases he : mergeEntries ign ch dch with
    | error e =>
      rw [mergeNode_dir_dir_err ign ch dch e he] at h
      cases h
    | ok e =>
      rw [mergeNode_dir_dir_ok ign ch dch e he] at h
      injection h with hw2
      subst hw2
      exact mergeNode_dir_dir_ok ign ch e e (mergeEntries_idem ign ch dch e hw he)
  | .dir ch, some (.file c0), w, hw, h => by
    have h2 : (Except.error "FileExistsError" : Except String FsNode) =
        Except.ok w := h
    cases h2

/-- Remerging a source listing onto its own merge result gives the same
result: the directory merge is idempotent. -/
theorem mergeEntries_idem (ign : List String) :
    ∀ (src : FsEntries) (dst d : FsEntries),
    wfEntries src = true → mergeEntries ign src dst = .ok d →
    mergeEntries ign src d = .ok d
  | .nil, dst, d, _, h => by
    have h2 : Except.ok dst = Except.ok d := h
    injection h2 with h3
    subst h3
    rfl
  | .cons n v rest, dst, d, hw, h => by
    obtain ⟨hmem, hv, hr⟩ := wfEntries_cons hw
    by_cases hig : n ∈ ign
    · rw [mergeEntries_cons_ign ign n v rest dst hig] at h
      rw [mergeEntries_cons_ign ign n v rest d hig]
      exact mergeEntries_idem ign rest dst d hr h
    · cases hl : lookupE dst n with
      | none =>
        cases hm : mergeNode ign v none with
        | error e =>
          rw [mergeEntries_cons_new_err ign n v rest dst e hig hl hm] at h
          cases h
        | ok w =>
          rw [mergeEntries_cons_new_ok ign n v rest dst w hig hl hm] at h
          have hld : lookupE d n = some w := by
            rw [mergeEntries_frame ign rest (appendE dst n w) d n h hmem]
            exact lookupE_appendE_self dst n w hl
          have hm2 : mergeNode ign v (some w) = .ok w :=
            mergeNode_idem ign v none w hv hm
          rw [mergeEntries_cons_found_ok ign n v rest d w w hig hld hm2,
            updateE_self d n w hld]
          exact mergeEntries_idem ign rest (appendE dst n w) d hr h
      | some old =>
        cases hm : mergeNode ign v (some old) with
        | error e =>
          rw [mergeEntries_cons_found_err ign n v rest dst old e hig hl hm] at h
          cases h
        | ok w =>
          rw [mergeEntries_cons_found_ok ign n v rest dst old w hig hl hm] at h
          have hld : lookupE d n = some w := by
            rw [mergeEntries_frame ign rest (updateE dst n w) d n h hmem]
            exact lookupE_updateE_self dst n w old hl
          have hm2 : mergeNode ign v (some w) = .ok w :=
            mergeNode_idem ign v (some old) w hv hm
          rw [mergeEntries_cons_found_ok ign n v rest d w w hig hld hm2,
            updateE_self d n w hld]
          exact mergeEntries_idem ign rest (updateE dst n w) d hr h
end

/-- Claim C7: the directory merge operation of `_copy_dir` is
idempotent: if merging a (well-formed) source tree into a destination
succeeds with result `d`, merging the same source into `d` succeeds
again and leaves the destination tree identical (files of the same
relative path are overwritten with the same content, nothing is
duplicated). -/
theorem claim7_merge_idempotent (ign : List String) (src dst d : FsEntries)
    (hwf : wfEntries src = true) (h : mergeEntries ign src dst = .ok d) :
    mergeEntries ign src d = .ok d :=
  mergeEntries_idem ign src dst d hwf h

def srcEx : FsEntries :=
  .cons "a" (.file "x") (.cons "d" (.dir (.cons "b" (.file "y") .nil)) .nil)

def dstEx : FsEntries :=
  .cons "a" (.file "old") (.cons "c" (.file "keep") .nil)

def dEx : FsEntries :=
  .cons "a" (.file "x")
    (.cons "c" (.file "keep") (.cons "d" (.dir (.cons "b" (.file "y") .nil)) .nil))

/-- Claim C7, witness: a concrete merge (overwriting `a`, keeping `c`,
creating `d/b`) and its idempotent re-merge. -/
theorem claim7_witness :
    mergeEntries [] srcEx dstEx = Except.ok dEx ∧
      mergeEntries [] srcEx dEx = Except.ok dEx :=
  ⟨rfl, claim7_merge_idempotent [] srcEx dstEx dEx rfl rfl⟩

/-! ## Flat file-system model for `build` and `install`

Paths are lists of components (`os.sep`-separated); a file system is an
ordered map from file paths to contents, directories being implicit as
proper prefixes of file paths.  `build` and `install` are embedded as
state transformers over this model following the source line by line.
On an exception the transformer stops and returns the state reached so
far, as the raised exception would leave it.
-/

abbrev Path := List String

abbrev FS := List (Path × String)

def lookupFS : FS → Path → Option String
  | [], _ => none
  | (q, c) :: rest, p => if q = p then some c else lookupFS rest p

def writeFS : FS → Path → String → FS
  | [], p, c => [(p, c)]
  | (q, c0) :: rest, p, c =>
    if q = p then (q, c) :: rest else (q, c0) :: writeFS rest p c

/-- Does `q` lie strictly below the directory `p`? -/
def underB (p q : Path) : Bool :=
  List.isPrefixOf p q && decide (p.length < q.length)

/-- Python `os.path.isdir` on the model: some file lives strictly below
`p`. -/
def isDirFS (fs : FS) (p : Path) : Bool :=
  fs.any (fun e => underB p e.1)

/-- Python `os.path.isfile` on the model. -/
def isFileFS (fs : FS) (p : Path) : Bool :=
  (lookupFS fs p).isSome

def dedupKeepFirst : List String → List String → List String
  | _, [] => []
  | seen, x :: xs =>
    if x ∈ seen then dedupKeepFirst seen xs
    else x :: dedupKeepFirst (x :: seen) xs

/-- Python `os.listdir` on the model: the immediate child names below
`p`, in file order, without duplicates. -/
def childNames (fs : FS) (p : Path) : List String :=
  dedupKeepFirst []
    (fs.filterMap (fun e => if underB p e.1 then (e.1.drop p.length).head? else none))

/-- Model of `_copy_dir` on the flat file system (the success path of
`shutil.copytree(src, dst, dirs_exist_ok=True, ignore=lambda *_: ignore)`):
every file under `src` whose relative path avoids the ignored names (the
ignore callable returns the same list at every level) is written to the
same relative path under `dst`, overwriting existing files. -/
def copyDir (ign : List String) (src dst : Path) (fs : FS) : FS :=
  (fs.filter (fun e => underB src e.1)).foldl
    (fun acc e =>
      if (e.1.drop src.length).any (fun comp => ign.contains comp) then acc
      else writeFS acc (dst ++ e.1.drop src.length) e.2)
    fs

/-- Rewrite of the placeholder shebang performed by `_replace_shebang`
on one file's content: `re.sub(r'^#!python', '#!' + interpreter, line)`
on the first line, all lines reprinted unchanged otherwise. -/
def rewriteShebang (interp : List Char) (content : List Char) : List Char :=
  if List.isPrefixOf ("#!python".toList) (content.takeWhile (fun c => c != '\n')) then
    "#!".toList ++ interp ++
      (content.takeWhile (fun c => c != '\n')).drop 8 ++
      content.dropWhile (fun c => c != '\n')
  else content

/-- Model of `_replace_shebang`: first check that every entry of the
directory is a regular file (raising `InstallException` otherwise,
before any write), then rewrite the first line of each file. -/
def replace_shebang (interp : List Char) (dir : Path) (fs : FS) : FS × Option String :=
  if (childNames fs dir).all (fun n => isFileFS fs (dir ++ [n])) then
    ((childNames fs dir).foldl
      (fun acc n =>
        match lookupFS acc (dir ++ [n]) with
        | some c => writeFS acc (dir ++ [n]) (String.mk (rewriteShebang interp c.toList))
        | none => acc)
      fs,
     none)
  else (fs, some "Script is not a file")

/-- The installation cache as seen across the two phases: the staged
file system plus the two pickled records (`wheel-info`, `metadata`),
modelled as typed values rather than serialized bytes. -/
structure World where
  fs : FS
  wheelInfoRec : Option WheelInfo
  metadataRec : Option (List (List Char × List Char))

structure IResult where
  world : World
  warns : List String
  err : Option String

/-- The component-path view of `_destdir_path` used inside `install`:
the scheme hands back the role path already split on `os.sep` (an
absolute `/usr/lib` is `["", "usr", "lib"]`; `[""]` is the empty
configured path, caught by `if not path` together with `none`), and the
remainder after dropping the first component is rejoined under
`destdir`. -/
def destdirPathC (scheme : String → Option Path) (destdir : Path) (lib : String) :
    Except String Path :=
  match scheme lib with
  | none => Except.error ("Couldn't find " ++ lib)
  | some p =>
    if p = [] ∨ p = [""] then Except.error ("Couldn't find " ++ lib)
    else Except.ok (destdir ++ p.drop 1)

/-- One `if os.path.isdir(target): _copy_dir(target, destdir_path(lib))`
step of `install` for `lib` in `['purelib', 'platlib']`. -/
def copyLibStep (scheme : String → Option Path) (destdir pkgCache : Path)
    (lib : String) (fs : FS) : Except String FS :=
  if isDirFS fs (pkgCache ++ [lib]) then
    match destdirPathC scheme destdir lib with
    | .error e => .error e
    | .ok d => .ok (copyDir [] (pkgCache ++ [lib]) d fs)
  else .ok fs

/-- One `_copy_dir(target, destdir_path(lib))` call of the data-directory
loop.  `target` is `os.path.join(pkg_cache_dir, node)` exactly as in the
source (not a child of the data directory); a missing `target` makes
`_copy_dir` raise `FileNotFoundError`. -/
def dataCopy (scheme : String → Option Path) (destdir pkgCache : Path)
    (lib node : String) (fs : FS) : Except String FS :=
  match destdirPathC scheme destdir lib with
  | .error e => .error e
  | .ok d =>
    if isDirFS fs (pkgCache ++ [node]) then .ok (copyDir [] (pkgCache ++ [node]) d fs)
    else .error "FileNotFoundError"

/-- The `for node in os.listdir(pkg_data_dir)` loop of `install`.  The
three `if` tests are sequential and the `else` belongs to the last one
(`node == 'scripts'`) only, exactly as in the source, so every node
other than `scripts` — including `purelib` and `platlib` — appends the
`Unhandled data folder` warning. -/
def dataLoop (scheme : String → Option Path) (destdir pkgCache : Path) :
    List String → FS → List String → FS × List String × Option String
  | [], fs, ws => (fs, ws, none)
  | node :: rest, fs, ws =>
    match (if node = "purelib"
           then dataCopy scheme destdir pkgCache "purelib" node fs else .ok fs) with
    | .error e => (fs, ws, some e)
    | .ok fs1 =>
      match (if node = "platlib"
             then dataCopy scheme destdir pkgCache "platlib" node fs1 else .ok fs1) with
      | .error e => (fs1, ws, some e)
      | .ok fs2 =>
        if node = "scripts" then
          match dataCopy scheme destdir pkgCache "scripts" node fs2 with
          | .error e => (fs2, ws, some e)
          | .ok fs3 => dataLoop scheme destdir pkgCache rest fs3 ws
        else
          dataLoop scheme destdir pkgCache rest fs2
            (ws ++ ["Unhandled data folder: " ++ node])

/-- Final step of `install`: merge the generated-scripts cache, if any,
into the resolved `scripts` role path. -/
def installScriptsStep (scheme : String → Option Path) (cache destdir : Path)
    (fs : FS) (ws : List String) (wrec : Option WheelInfo)
    (mrec : Option (List (List Char × List Char))) : IResult :=
  if isDirFS fs (cache ++ ["scripts"]) then
    match destdirPathC scheme destdir "scripts" with
    | .error e => ⟨⟨fs, wrec, mrec⟩, ws, some e⟩
    | .ok d => ⟨⟨copyDir [] (cache ++ ["scripts"]) d fs, wrec, mrec⟩, ws, none⟩
  else ⟨⟨fs, wrec, mrec⟩, ws, none⟩

/-- Data-directory step of `install`: the source computes
`pkg_data_dir = os.path.join(cache_dir, pkg_data_dir_name)` — directly
under the cache directory, not under its `pkg` subdirectory. -/
def installDataStep (scheme : String → Option Path) (cache destdir : Path)
    (dataName : String) (fs : FS) (wrec : Option WheelInfo)
    (mrec : Option (List (List Char × List Char))) : IResult :=
  match (if isDirFS fs (cache ++ [dataName]) then
           dataLoop scheme destdir (cache ++ ["pkg"])
             (childNames fs (cache ++ [dataName])) fs []
         else (fs, [], none)) with
  | (fs4, ws, some e) => ⟨⟨fs4, wrec, mrec⟩, ws, some e⟩
  | (fs4, ws, none) => installScriptsStep scheme cache destdir fs4 ws wrec mrec

/-- Library-subdirectory steps of `install`
(`for lib in ['purelib', 'platlib']: ...`), followed by the
data-directory step. -/
def installLibSteps (scheme : String → Option Path) (cache destdir : Path)
    (dataName : String) (fs : FS) (wrec : Option WheelInfo)
    (mrec : Option (List (List Char × List Char))) : IResult :=
  match copyLibStep scheme destdir (cache ++ ["pkg"]) "purelib" fs with
  | .error e => ⟨⟨fs, wrec, mrec⟩, [], some e⟩
  | .ok fs2 =>
    match copyLibStep scheme destdir (cache ++ ["pkg"]) "platlib" fs2 with
    | .error e => ⟨⟨fs2, wrec, mrec⟩, [], some e⟩
    | .ok fs3 => installDataStep scheme cache destdir dataName fs3 wrec mrec

/-- Model of `install(cache_dir, destdir)`. -/
def install (scheme : String → Option Path) (cache destdir : Path) (w : World) :
    IResult :=
  match w.wheelInfoRec with
  | none => ⟨w, [], some "FileNotFoundError: wheel-info.pickle"⟩
  | some wi =>
    match w.metadataRec with
    | none => ⟨w, [], some "FileNotFoundError: metadata.pickle"⟩
    | some md =>
      match rootRole md with
      | none => ⟨w, [], some "KeyError: Root-Is-Purelib"⟩
      | some role =>
        match destdirPathC scheme destdir role with
        | .error e => ⟨w, [], some e⟩
        | .ok pkgDir =>
          if isDirFS w.fs (cache ++ ["pkg"]) then
            installLibSteps scheme cache destdir
              (String.mk wi.distribution ++ "-" ++ String.mk wi.version ++ ".data")
              (copyDir
                ["purelib", "platlib",
                  String.mk wi.distribution ++ "-" ++ String.mk wi.version ++ ".data"]
                (cache ++ ["pkg"]) pkgDir w.fs)
              w.wheelInfoRec w.metadataRec
          else ⟨w, [], some "FileNotFoundError"⟩

/-- Model of `build(wheel, cache_dir)`.  The compatibility verifier is
modelled as its `ImportError` fallback (a non-fatal warning) and the
precompiler is omitted: both only add environment-dependent artifacts
and neither is the subject of a claim.  Entry-point launcher generation
(`installer.scripts`) is an external collaborator, abstracted as `gen`
mapping the `entry_points.txt` content to the generated
`(name, data)` launcher files. -/
def build (gen : String → List (String × String)) (interp : List Char)
    (archiveName : String) (entries : List (Path × String)) (cache : Path)
    (w : World) : World × Option String :=
  match parse_name archiveName with
  | .error e => (w, some e)
  | .ok wi =>
    let pkgCache := cache ++ ["pkg"]
    let fs1 := entries.foldl (fun acc en => writeFS acc (pkgCache ++ en.1) en.2) w.fs
    let distver := String.mk wi.distribution ++ "-" ++ String.mk wi.version
    let distInfo := pkgCache ++ [distver ++ ".dist-info"]
    match lookupFS fs1 (distInfo ++ ["WHEEL"]) with
    | none => (⟨fs1, w.wheelInfoRec, w.metadataRec⟩, some "FileNotFoundError: WHEEL")
    | some wheelFile =>
      let md := read_wheel_metadata (splitOnChar '\n' wheelFile.toList)
      match alookup md ("Wheel-Version".toList) with
      | none => (⟨fs1, w.wheelInfoRec, w.metadataRec⟩, some "KeyError: Wheel-Version")
      | some ver =>
        match wheel_version_check ver with
        | .error e => (⟨fs1, w.wheelInfoRec, w.metadataRec⟩, some e)
        | .ok _ =>
          let fs2 :=
            match lookupFS fs1 (distInfo ++ ["entry_points.txt"]) with
            | some epc =>
              (gen epc).foldl
                (fun acc nd => writeFS acc (cache ++ ["scripts", nd.1]) nd.2) fs1
            | none => fs1
          match (if isDirFS fs2 (pkgCache ++ [distver ++ ".data", "scripts"]) then
                   replace_shebang interp (pkgCache ++ [distver ++ ".data", "scripts"]) fs2
                 else (fs2, none)) with
          | (fs3, some e) => (⟨fs3, w.wheelInfoRec, w.metadataRec⟩, some e)
          | (fs3, none) => (⟨fs3, some wi, some md⟩, none)

/-! ### Concrete build → install runs -/

def exGen : String → List (String × String) := fun _ => []

def exInterp : List Char := "/usr/bin/python3".toList

/-- A synthetic wheel: one purelib payload file, the `WHEEL` descriptor,
and one `<pkg>.data/scripts/foo` script with the placeholder shebang. -/
def exEntries : List (Path × String) :=
  [ (["m", "mod.py"], "x = 1\n"),
    (["m-1.dist-info", "WHEEL"], "Wheel-Version: 1.0\nRoot-Is-Purelib: true\n"),
    (["m-1.data", "scripts", "foo"], "#!python\necho hi\n") ]

/-- A POSIX-like installation scheme. -/
def exScheme : String → Option Path := fun lib =>
  if lib = "purelib" then some ["", "usr", "lib", "python", "site-packages"]
  else if lib = "platlib" then some ["", "usr", "lib64", "python", "site-packages"]
  else if lib = "scripts" then some ["", "usr", "bin"]
  else none

def exBuilt : World :=
  (build exGen exInterp "m-1-py3-none-any.whl" exEntries ["cache"] ⟨[], none, none⟩).1

def exInstalled : IResult := install exScheme ["cache"] ["dest"] exBuilt

/-- Claim C1: `build` succeeds on the synthetic archive and rewrites the
staged script's shebang inside the cache, and `install` places the
purelib payload under the resolved purelib path — but `foo` never
appears under the resolved scripts role path (`/usr/bin` under
`dest`), because `install` computes the `.data` directory location as
`cache_dir/<pkg>.data` while `build` stages it at
`cache_dir/pkg/<pkg>.data`, and the root merge ignores that name. -/
theorem claim1_data_scripts_never_installed :
    (build exGen exInterp "m-1-py3-none-any.whl" exEntries ["cache"]
        ⟨[], none, none⟩).2 = none ∧
    exInstalled.err = none ∧
    lookupFS exInstalled.world.fs
      ["dest", "usr", "lib", "python", "site-packages", "m", "mod.py"] =
        some "x = 1\n" ∧
    lookupFS exBuilt.fs ["cache", "pkg", "m-1.data", "scripts", "foo"] =
      some "#!/usr/bin/python3\necho hi\n" ∧
    lookupFS exInstalled.world.fs ["dest", "usr", "bin", "foo"] = none ∧
    childNames exInstalled.world.fs ["dest", "usr", "bin"] = [] := by
  decide

/-- A cache whose `<pkg>.data` directory (at the location `install`
checks, directly under the cache root) has a `purelib` child, and whose
`pkg/purelib` directory exists so the copy source is present. -/
def exWorld6 : World :=
  ⟨[ (["cache", "pkg", "purelib", "p.py"], "p\n"),
     (["cache", "m-1.data", "purelib", "q.py"], "q\n") ],
   some ⟨"m".toList, "1".toList, none, "py3".toList, "none".toList, "any".toList⟩,
   some [("Wheel-Version".toList, "1.0".toList),
         ("Root-Is-Purelib".toList, "true".toList)]⟩

def exInstalled6 : IResult := install exScheme ["cache"] ["dest"] exWorld6

/-- Claim C6: during `install`, a `purelib` child of the `<pkg>.data`
directory is copied, yet it is also flagged with the
`Unhandled data folder` warning — the `else` of the loop is attached to
the `node == 'scripts'` test only — and the copied content comes from
`pkg_cache_dir/purelib`, not from the data directory's own `purelib`
child (`q.py` is never installed). -/
theorem claim6_data_loop_flags_purelib :
    exInstalled6.err = none ∧
    exInstalled6.warns = ["Unhandled data folder: purelib"] ∧
    lookupFS exInstalled6.world.fs
      ["dest", "usr", "lib", "python", "site-packages", "p.py"] = some "p\n" ∧
    lookupFS exInstalled6.world.fs
      ["dest", "usr", "lib", "python", "site-packages", "q.py"] = none := by
  decide

/-- Claim C10: whenever `_replace_shebang` raises the not-a-regular-file
error, no file has been modified — the validation loop over all entries
runs before any rewrite. -/
theorem claim10_replace_shebang_atomic (interp : List Char) (dir : Path)
    (fs fs2 : FS) (e : String) (h : replace_shebang interp dir fs = (fs2, some e)) :
    fs2 = fs := by
  unfold replace_shebang at h
  by_cases hc : (childNames fs dir).all (fun n => isFileFS fs (dir ++ [n])) = true
  · rw [if_pos hc] at h
    have h2 := congrArg Prod.snd h
    cases h2
  · rw [if_neg hc] at h
    have h1 := congrArg Prod.fst h
    exact h1.symm

/-- A scripts directory containing a subdirectory entry (`sub/f`)
alongside a regular script. -/
def exFs10 : FS :=
  [ (["cache", "pkg", "m-1.data", "scripts", "sub", "f"], "z\n"),
    (["cache", "pkg", "m-1.data", "scripts", "foo"], "#!python\nhi\n") ]

/-- Claim C10, witness: on a directory with a non-file entry the rewrite
errors out and the file system is returned unchanged. -/
theorem claim10_witness :
    replace_shebang exInterp ["cache", "pkg", "m-1.data", "scripts"] exFs10 =
      (exFs10, some "Script is not a file") ∧
    (replace_shebang exInterp ["cache", "pkg", "m-1.data", "scripts"] exFs10).1 =
      exFs10 :=
  ⟨rfl,
   claim10_replace_shebang_atomic exInterp ["cache", "pkg", "m-1.data", "scripts"]
     exFs10 _ "Script is not a file" rfl⟩

/-! ### Frame property of `install` over the cache subtree -/

theorem lookupFS_writeFS_ne :
    ∀ (fs : FS) (p : Path) (c : String) (q : Path),
    q ≠ p → lookupFS (writeFS fs p c) q = lookupFS fs q
  | [], p, c, q, h => by
    show (if p = q then some c else none) = none
    rw [if_neg (fun e => h e.symm)]
  | (p0, c0) :: rest, p, c, q, h => by
    show lookupFS (if p0 = p then (p0, c) :: rest else (p0, c0) :: writeFS rest p c) q
      = _
    by_cases h0 : p0 = p
    · rw [if_pos h0]
      show (if p0 = q then some c else lookupFS rest q) =
        (if p0 = q then some c0 else lookupFS rest q)
      have hpq : p0 ≠ q := fun e => h (e.symm.trans h0)
      rw [if_neg hpq, if_neg hpq]
    · rw [if_neg h0]
      show (if p0 = q then some c0 else lookupFS (writeFS rest p c) q) =
        (if p0 = q then some c0 else lookupFS rest q)
      by_cases h1 : p0 = q
      · rw [if_pos h1, if_pos h1]
      · rw [if_neg h1, if_neg h1, lookupFS_writeFS_ne rest p c q h]

theorem copyDir_fold_frame (ign : List String) (srcLen : Nat) (dst q : Path)
    (h : ¬ dst <+: q) :
    ∀ (es : List (Path × String)) (acc : FS),
    lookupFS
      (es.foldl
        (fun acc e =>
          if (e.1.drop srcLen).any (fun comp => ign.contains comp) then acc
          else writeFS acc (dst ++ e.1.drop srcLen) e.2)
        acc) q = lookupFS acc q := by
  intro es
  induction es with
  | nil => intro acc; rfl
  | cons e es ih =>
    intro acc
    rw [List.foldl_cons, ih]
    by_cases hig : (e.1.drop srcLen).any (fun comp => ign.contains comp) = true
    · rw [if_pos hig]
    · rw [if_neg hig]
      refine lookupFS_writeFS_ne acc _ e.2 q fun he => ?_
      exact h (he ▸ List.prefix_append dst (e.1.drop srcLen))

theorem copyDir_frame (ign : List String) (src dst : Path) (fs : FS) (q : Path)
    (h : ¬ dst <+: q) :
    lookupFS (copyDir ign src dst fs) q = lookupFS fs q := by
  unfold copyDir
  exact copyDir_fold_frame ign src.length dst q h _ fs

/-- The destination paths the scheme can resolve for any role are
disjoint from the cache directory: neither contains the other. -/
def schemeDisjoint (scheme : String → Option Path) (destdir cache : Path) : Prop :=
  ∀ lib d, destdirPathC scheme destdir lib = .ok d → ¬ d <+: cache ∧ ¬ cache <+: d

theorem not_prefix_of_disjoint {cache q d : Path} (hq : cache <+: q)
    (h1 : ¬ d <+: cache) (h2 : ¬ cache <+: d) : ¬ d <+: q := fun hdq =>
  ( List.prefix_or_prefix_of_prefix hdq hq).elim h1 h2

theorem copyLibStep_frame (scheme : String → Option Path) (destdir pkgCache cache : Path)
    (lib : String) (fs fs2 : FS) (q : Path) (hq : cache <+: q)
    (hs : schemeDisjoint scheme destdir cache)
    (h : copyLibStep scheme destdir pkgCache lib fs = .ok fs2) :
    lookupFS fs2 q = lookupFS fs q := by
  unfold copyLibStep at h
  by_cases hd : isDirFS fs (pkgCache ++ [lib]) = true
  · rw [if_pos hd] at h
    cases he : destdirPathC scheme destdir lib with
    | error e => rw [he] at h; cases h
    | ok d =>
      rw [he] at h
      have h2 : Except.ok (copyDir [] (pkgCache ++ [lib]) d fs) =
          (Except.ok fs2 : Except String FS) := h
      injection h2 with h3
      rw [← h3]
      exact copyDir_frame [] _ d fs q
        (not_prefix_of_disjoint hq (hs lib d he).1 (hs lib d he).2)
  · rw [if_neg hd] at h
    have h2 : (Except.ok fs : Except String FS) = Except.ok fs2 := h
    injection h2 with h3
    rw [← h3]

theorem dataCopy_frame (scheme : String → Option Path) (destdir pkgCache cache : Path)
    (lib node : String) (fs fs2 : FS) (q : Path) (hq : cache <+: q)
    (hs : schemeDisjoint scheme destdir cache)
    (h : dataCopy scheme destdir pkgCache lib node fs = .ok fs2) :
    lookupFS fs2 q = lookupFS fs q := by
  unfold dataCopy at h
  cases he : destdirPathC scheme destdir lib with
  | error e => rw [he] at h; cases h
  | ok d =>
    rw [he] at h
    have h' : (if isDirFS fs (pkgCache ++ [node]) = true
               then Except.ok (copyDir [] (pkgCache ++ [node]) d fs)
               else (Except.error "FileNotFoundError" : Except String FS)) =
        Except.ok fs2 := h
    by_cases hd : isDirFS fs (pkgCache ++ [node]) = true
    · rw [if_pos hd] at h'
      injection h' with h3
      rw [← h3]
      exact copyDir_frame [] _ d fs q
        (not_prefix_of_disjoint hq (hs lib d he).1 (hs lib d he).2)
    · rw [if_neg hd] at h'
      cases h'

theorem dataCopy_if_frame (scheme : String → Option Path)
    (destdir pkgCache cache : Path) (cond : Prop) [Decidable cond]
    (lib node : String) (fs fs2 : FS) (q : Path) (hq : cache <+: q)
    (hs : schemeDisjoint scheme destdir cache)
    (h : (if cond then dataCopy scheme destdir pkgCache lib node fs
          else .ok fs) = .ok fs2) :
    lookupFS fs2 q = lookupFS fs q := by
  by_cases hc : cond
  · rw [if_pos hc] at h
    exact dataCopy_frame scheme destdir pkgCache cache lib node fs fs2 q hq hs h
  · rw [if_neg hc] at h
    have h2 : (Except.ok fs : Except String FS) = Except.ok fs2 := h
    injection h2 with h3
    rw [← h3]

theorem dataLoop_frame (scheme : String → Option Path) (destdir pkgCache cache : Path)
    (q : Path) (hq : cache <+: q) (hs : schemeDisjoint scheme destdir cache) :
    ∀ (nodes : List String) (fs : FS) (ws : List String),
    lookupFS (dataLoop scheme destdir pkgCache nodes fs ws).1 q = lookupFS fs q := by
  intro nodes
  induction nodes with
  | nil => intro fs ws; rfl
  | cons node rest ih =>
    intro fs ws
    show lookupFS
        (match (if node = "purelib"
                then dataCopy scheme destdir pkgCache "purelib" node fs
                else .ok fs) with
         | .error e => (fs, ws, some e)
         | .ok fs1 =>
           match (if node = "platlib"
                  then dataCopy scheme destdir pkgCache "platlib" node fs1
                  else .ok fs1) with
           | .error e => (fs1, ws, some e)
           | .ok fs2 =>
             if node = "scripts" then
               match dataCopy scheme destdir pkgCache "scripts" node fs2 with
               | .error e => (fs2, ws, some e)
               | .ok fs3 => dataLoop scheme destdir pkgCache rest fs3 ws
             else
               dataLoop scheme destdir pkgCache rest fs2
                 (ws ++ ["Unhandled data folder: " ++ node])).1 q = lookupFS fs q
    split
    next e h1 => rfl
    next fs1 h1 =>
      have hf1 : lookupFS fs1 q = lookupFS fs q :=
        dataCopy_if_frame scheme destdir pkgCache cache _ "purelib" node fs fs1 q
          hq hs h1
      split
      next e h2 => exact hf1
      next fs2 h2 =>
        have hf2 : lookupFS fs2 q = lookupFS fs1 q :=
          dataCopy_if_frame scheme destdir pkgCache cache _ "platlib" node fs1 fs2 q
            hq hs h2
        split
        next hsc =>
          split
          next e h3 => exact hf2.trans hf1
          next fs3 h3 =>
            have hf3 : lookupFS fs3 q = lookupFS fs2 q :=
              dataCopy_frame scheme destdir pkgCache cache "scripts" node fs2 fs3 q
                hq hs h3
            rw [ih fs3 ws, hf3, hf2, hf1]
        next hsc =>
          rw [ih fs2 (ws ++ ["Unhandled data folder: " ++ node]), hf2, hf1]

theorem installScriptsStep_frame (scheme : String → Option Path)
    (cache destdir : Path) (fs : FS) (ws : List String) (wrec : Option WheelInfo)
    (mrec : Option (List (List Char × List Char))) (q : Path) (hq : cache <+: q)
    (hs : schemeDisjoint scheme destdir cache) :
    lookupFS (installScriptsStep scheme cache destdir fs ws wrec mrec).world.fs q =
      lookupFS fs q ∧
    (installScriptsStep scheme cache destdir fs ws wrec mrec).world.wheelInfoRec =
      wrec ∧
    (installScriptsStep scheme cache destdir fs ws wrec mrec).world.metadataRec =
      mrec := by
  unfold installScriptsStep
  split
  next hd =>
    split
    next e he => exact ⟨rfl, rfl, rfl⟩
    next d he =>
      exact ⟨copyDir_frame [] _ d fs q
          (not_prefix_of_disjoint hq (hs _ d he).1 (hs _ d he).2), rfl, rfl⟩
  next hd => exact ⟨rfl, rfl, rfl⟩

theorem installDataStep_frame (scheme : String → Option Path)
    (cache destdir : Path) (dataName : String) (fs : FS) (wrec : Option WheelInfo)
    (mrec : Option (List (List Char × List Char))) (q : Path) (hq : cache <+: q)
    (hs : schemeDisjoint scheme destdir cache) :
    lookupFS (installDataStep scheme cache destdir dataName fs wrec mrec).world.fs q =
      lookupFS fs q ∧
    (installDataStep scheme cache destdir dataName fs wrec mrec).world.wheelInfoRec =
      wrec ∧
    (installDataStep scheme cache destdir dataName fs wrec mrec).world.metadataRec =
      mrec := by
  have hif : lookupFS
      (if isDirFS fs (cache ++ [dataName]) = true then
        dataLoop scheme destdir (cache ++ ["pkg"])
          (childNames fs (cache ++ [dataName])) fs []
       else (fs, [], none)).1 q = lookupFS fs q := by
    split
    · exact dataLoop_frame scheme destdir (cache ++ ["pkg"]) cache q hq hs _ fs []
    · rfl
  unfold installDataStep
  split
  next fs4 ws2 e h =>
    have h1 : lookupFS fs4 q = lookupFS fs q := by
      rw [show fs4 =
          (if isDirFS fs (cache ++ [dataName]) = true then
            dataLoop scheme destdir (cache ++ ["pkg"])
              (childNames fs (cache ++ [dataName])) fs []
           else (fs, [], none)).1 from by rw [h]]
      exact hif
    exact ⟨h1, rfl, rfl⟩
  next fs4 ws2 h =>
    have h1 : lookupFS fs4 q = lookupFS fs q := by
      rw [show fs4 =
          (if isDirFS fs (cache ++ [dataName]) = true then
            dataLoop scheme destdir (cache ++ ["pkg"])
              (childNames fs (cache ++ [dataName])) fs []
           else (fs, [], none)).1 from by rw [h]]
      exact hif
    obtain ⟨ha, hb, hc⟩ :=
      installScriptsStep_frame scheme cache destdir fs4 ws2 wrec mrec q hq hs
    exact ⟨ha.trans h1, hb, hc⟩

theorem installLibSteps_frame (scheme : String → Option Path)
    (cache destdir : Path) (dataName : String) (fs : FS) (wrec : Option WheelInfo)
    (mrec : Option (List (List Char × List Char))) (q : Path) (hq : cache <+: q)
    (hs : schemeDisjoint scheme destdir cache) :
    lookupFS (installLibSteps scheme cache destdir dataName fs wrec mrec).world.fs q =
      lookupFS fs q ∧
    (installLibSteps scheme cache destdir dataName fs wrec mrec).world.wheelInfoRec =
      wrec ∧
    (installLibSteps scheme cache destdir dataName fs wrec mrec).world.metadataRec =
      mrec := by
  unfold installLibSteps
  split
  next e h => exact ⟨rfl, rfl, rfl⟩
  next fs2 h =>
    have hf2 : lookupFS fs2 q = lookupFS fs q :=
      copyLibStep_frame scheme destdir (cache ++ ["pkg"]) cache "purelib" fs fs2 q
        hq hs h
    split
    next e h2 => exact ⟨hf2, rfl, rfl⟩
    next fs3 h2 =>
      have hf3 : lookupFS fs3 q = lookupFS fs2 q :=
        copyLibStep_frame scheme destdir (cache ++ ["pkg"]) cache "platlib" fs2 fs3 q
          hq hs h2
      obtain ⟨ha, hb, hc⟩ :=
        installDataStep_frame scheme cache destdir dataName fs3 wrec mrec q hq hs
      exact ⟨ha.trans (hf3.trans hf2), hb, hc⟩

/-- Claim C9, amended: whenever every destination role path the scheme
can resolve is disjoint from the cache directory (neither contains the
other), `install` leaves every file under the cache directory — and
both persisted records — unchanged, whatever its outcome, so the same
cache can be installed repeatedly to different destination roots. -/
theorem claim9_amended (scheme : String → Option Path) (cache destdir : Path)
    (w : World) (q : Path) (hq : cache <+: q)
    (hs : schemeDisjoint scheme destdir cache) :
    lookupFS (install scheme cache destdir w).world.fs q = lookupFS w.fs q ∧
    (install scheme cache destdir w).world.wheelInfoRec = w.wheelInfoRec ∧
    (install scheme cache destdir w).world.metadataRec = w.metadataRec := by
  unfold install
  split
  next => exact ⟨rfl, rfl, rfl⟩
  next wi hwi =>
    split
    next => exact ⟨rfl, rfl, rfl⟩
    next md hmd =>
      split
      next => exact ⟨rfl, rfl, rfl⟩
      next role hrole =>
        split
        next e he => exact ⟨rfl, rfl, rfl⟩
        next pkgDir he =>
          split
          next hd =>
            obtain ⟨ha, hb, hc⟩ :=
              installLibSteps_frame scheme cache destdir
                (String.mk wi.distribution ++ "-" ++ String.mk wi.version ++ ".data")
                (copyDir
                  ["purelib", "platlib",
                    String.mk wi.distribution ++ "-" ++ String.mk wi.version ++ ".data"]
                  (cache ++ ["pkg"]) pkgDir w.fs)
                w.wheelInfoRec w.metadataRec q hq hs
            refine ⟨ha.trans ?_, hb, hc⟩
            exact copyDir_frame _ _ pkgDir w.fs q
              (not_prefix_of_disjoint hq (hs role pkgDir he).1 (hs role pkgDir he).2)
          next hd => exact ⟨rfl, rfl, rfl⟩

/-- Claim C9, counterexample: installing the cache produced by `build`
with the destination root set to the cache's own `pkg` directory writes
the payload into the staged payload tree, so the cache contents are not
identical afterwards (a new file appears under `cache/pkg`). -/
theorem claim9_counterexample :
    lookupFS exBuilt.fs
      ["cache", "pkg", "usr", "lib", "python", "site-packages", "m", "mod.py"] =
        none ∧
    lookupFS (install exScheme ["cache"] ["cache", "pkg"] exBuilt).world.fs
      ["cache", "pkg", "usr", "lib", "python", "site-packages", "m", "mod.py"] =
        some "x = 1\n" := by
  decide

theorem exScheme_disjoint : schemeDisjoint exScheme ["dest"] ["cache"] := by
  intro lib d h
  by_cases h1 : lib = "purelib"
  · subst h1
    rw [show destdirPathC exScheme ["dest"] "purelib" =
        Except.ok ["dest", "usr", "lib", "python", "site-packages"] from rfl] at h
    injection h with h2
    rw [← h2]
    exact ⟨by decide, by decide⟩
  · by_cases h2 : lib = "platlib"
    · subst h2
      rw [show destdirPathC exScheme ["dest"] "platlib" =
          Except.ok ["dest", "usr", "lib64", "python", "site-packages"] from rfl] at h
      injection h with h3
      rw [← h3]
      exact ⟨by decide, by decide⟩
    · by_cases h3 : lib = "scripts"
      · subst h3
        rw [show destdirPathC exScheme ["dest"] "scripts" =
            Except.ok ["dest", "usr", "bin"] from rfl] at h
        injection h with h4
        rw [← h4]
        exact ⟨by decide, by decide⟩
      · have hnone : exScheme lib = none := by
          unfold exScheme
          rw [if_neg h1, if_neg h2, if_neg h3]
        unfold destdirPathC at h
        rw [hnone] at h
        cases h

/-- Claim C9, witness: the amended statement applied to the concrete
built cache, a disjoint destination root and a path inside the staged
payload tree. -/
theorem claim9_witness :
    lookupFS (install exScheme ["cache"] ["dest"] exBuilt).world.fs
        ["cache", "pkg", "m", "mod.py"] =
      lookupFS exBuilt.fs ["cache", "pkg", "m", "mod.py"] ∧
    (install exScheme ["cache"] ["dest"] exBuilt).world.wheelInfoRec =
      exBuilt.wheelInfoRec ∧
    (install exScheme ["cache"] ["dest"] exBuilt).world.metadataRec =
      exBuilt.metadataRec :=
  claim9_amended exScheme ["cache"] ["dest"] exBuilt
    ["cache", "pkg", "m", "mod.py"] (by decide) exScheme_disjoint

end PyInstall
